import Mathlib

/-!
Verification of the ExpensePro ledger service (Flask + SQLAlchemy, src/app.py).
The data model and operations are embedded shallowly: dates are year/month/day
triples with explicit proleptic-Gregorian arithmetic (the arithmetic behind
Python datetime.date and timedelta), amounts are rationals, the SQLite tables
are lists of records, and each handler of interest becomes a pure function from
an authenticated tenant id and a ledger state to a result.
-/

namespace ExpensePro

/-- Calendar date as held by a Python datetime.date value. -/
structure Date where
  year : Nat
  month : Nat
  day : Nat
deriving DecidableEq, Repr

/-- Gregorian leap-year test. -/
def isLeap (y : Nat) : Bool :=
  (y % 4 == 0 && y % 100 != 0) || y % 400 == 0

/-- Length in days of month m of year y. -/
def daysInMonth (y m : Nat) : Nat :=
  match m with
  | 2 => if isLeap y then 29 else 28
  | 4 | 6 | 9 | 11 => 30
  | _ => 31

/-- A year/month/day triple the Python date constructor accepts. -/
def validDate : Date → Prop
  | ⟨y, m, d⟩ => 1 ≤ y ∧ 1 ≤ m ∧ m ≤ 12 ∧ 1 ≤ d ∧ d ≤ daysInMonth y m

instance (d : Date) : Decidable (validDate d) := by
  obtain ⟨y, m, dd⟩ := d
  unfold validDate
  infer_instance

/-- Days in the months of year y strictly before month m. -/
def daysBeforeMonth (y m : Nat) : Nat :=
  (if 2 ≤ m then 31 else 0) + (if 3 ≤ m then daysInMonth y 2 else 0) +
  (if 4 ≤ m then 31 else 0) + (if 5 ≤ m then 30 else 0) +
  (if 6 ≤ m then 31 else 0) + (if 7 ≤ m then 30 else 0) +
  (if 8 ≤ m then 31 else 0) + (if 9 ≤ m then 31 else 0) +
  (if 10 ≤ m then 30 else 0) + (if 11 ≤ m then 31 else 0) +
  (if 12 ≤ m then 30 else 0)

/-- Days in years 1 .. y-1 of the proleptic Gregorian calendar. -/
def daysBeforeYear (y : Nat) : Nat :=
  365 * (y - 1) + (y - 1) / 4 - (y - 1) / 100 + (y - 1) / 400

/-- Rata-die style day index: 0 for January 1 of year 1. -/
def dayNumber : Date → Nat
  | ⟨y, m, d⟩ => daysBeforeYear y + daysBeforeMonth y m + (d - 1)

/-- Weekday with Monday = 0 .. Sunday = 6, as Python date.weekday returns
(January 1 of year 1 is a Monday in the proleptic Gregorian calendar). -/
def weekday (d : Date) : Nat := dayNumber d % 7

/-- Next calendar day. -/
def succD : Date → Date
  | ⟨y, m, d⟩ =>
    if d < daysInMonth y m then ⟨y, m, d + 1⟩
    else if m < 12 then ⟨y, m + 1, 1⟩
    else ⟨y + 1, 1, 1⟩

/-- Previous calendar day. -/
def predD : Date → Date
  | ⟨y, m, d⟩ =>
    if 1 < d then ⟨y, m, d - 1⟩
    else if 1 < m then ⟨y, m - 1, daysInMonth y (m - 1)⟩
    else ⟨y - 1, 12, 31⟩

/-- Python date + timedelta(days = n). -/
def addDays : Nat → Date → Date
  | 0, d => d
  | n + 1, d => addDays n (succD d)

/-- Python date - timedelta(days = n). -/
def subDays : Nat → Date → Date
  | 0, d => d
  | n + 1, d => subDays n (predD d)

/-- Python date.replace(day = 1). -/
def replaceDay1 : Date → Date
  | ⟨y, m, _⟩ => ⟨y, m, 1⟩

/-- Zero-based day of the year: 0 for January 1. -/
def dayOfYear0 : Date → Nat
  | ⟨y, m, d⟩ => daysBeforeMonth y m + (d - 1)

/-- Week number as computed by strftime with the W directive in SQLite:
Monday-started weeks counted from the first Monday of the calendar year,
with days before that Monday falling into week 0. -/
def sqliteWeekW (d : Date) : Nat := (dayOfYear0 d + 7 - weekday d) / 7

/-- Weekly bucket key the analysis endpoint emits: the pair of
extract(year, date) and int(strftime(W, date)). -/
def weeklyKey (d : Date) : Nat × Nat := (d.year, sqliteWeekW d)

/-- Modelled from the spec: the ISO 8601 week key (Monday-start weeks, the week
containing January 4 is week 1), phrased through the Thursday of the week of
the given date. This definition is the comparison point the spec demands, not
code present in the repository. -/
def isoWeekKey (d : Date) : Nat × Nat :=
  let th := addDays 3 (subDays (weekday d) d)
  (th.year, dayOfYear0 th / 7 + 1)

/-- Period parameter after the membership check in the handlers. -/
inductive Period where
  | daily
  | weekly
  | monthly
  | yearly
deriving DecidableEq, Repr

/-- Default date window of the summary endpoint when no explicit range is
given, transcribed from the period branches of src/app.py. -/
def defaultWindow : Period → Date → Date × Date
  | .daily, t => (t, t)
  | .weekly, t =>
    let s := subDays (weekday t) t
    (s, addDays 6 s)
  | .monthly, t =>
    let s := replaceDay1 t
    (s, predD (replaceDay1 (addDays 31 s)))
  | .yearly, t => (⟨t.year, 1, 1⟩, ⟨t.year, 12, 31⟩)

/-- Comparison of dates as SQLite compares stored ISO date strings. -/
def dateLe (a b : Date) : Prop :=
  a.year < b.year ∨ (a.year = b.year ∧
    (a.month < b.month ∨ (a.month = b.month ∧ a.day ≤ b.day)))

instance (a b : Date) : Decidable (dateLe a b) := by
  unfold dateLe; infer_instance

/-- Strict variant of dateLe for the start-after-end check. -/
def dateLt (a b : Date) : Prop :=
  a.year < b.year ∨ (a.year = b.year ∧
    (a.month < b.month ∨ (a.month = b.month ∧ a.day < b.day)))

instance (a b : Date) : Decidable (dateLt a b) := by
  unfold dateLt; infer_instance

/-- Window resolution of the summary endpoint: the explicit range is used only
when both bounds are present, otherwise the default window of the period. -/
def resolveWindow (p : Period) (fromArg toArg : Option Date) (today : Date) :
    Except String (Date × Date) :=
  match fromArg, toArg with
  | some lo, some hi =>
    if validDate lo ∧ validDate hi then
      if dateLt hi lo then .error "Start date must be before end date"
      else .ok (lo, hi)
    else .error "Invalid date format"
  | _, _ => .ok (defaultWindow p today)

/-- Category row of the category table. -/
structure Cat where
  cid : Nat
  user : Nat
  name : String
  ctype : String
deriving DecidableEq, Repr

/-- Expense row of the expense table. -/
structure Exp where
  eid : Nat
  user : Nat
  catId : Nat
  amount : Rat
  date : Date
  merchant : Option String
  account : Option String
  project : Option String
  tags : Option String
  note : Option String
deriving DecidableEq, Repr

/-- The two tables the handlers read and write. -/
structure Ledger where
  cats : List Cat
  exps : List Exp
deriving DecidableEq, Repr

/-- Category lookup by primary key alone, as Category.query.get does. -/
def findCatById (s : Ledger) (i : Nat) : Option Cat :=
  s.cats.find? (fun c => c.cid == i)

/-- Tenant-scoped category lookup: filter_by(id = i, user_id = t).first. -/
def findCat (t i : Nat) (s : Ledger) : Option Cat :=
  s.cats.find? (fun c => c.cid == i && c.user == t)

/-- Tenant-scoped category lookup by name: filter_by(user_id = t, name = n).first. -/
def findCatByName (t : Nat) (n : String) (s : Ledger) : Option Cat :=
  s.cats.find? (fun c => c.user == t && c.name == n)

/-- Tenant-scoped expense lookup: filter_by(id = i, user_id = t).first. -/
def findExp (t i : Nat) (s : Ledger) : Option Exp :=
  s.exps.find? (fun e => e.eid == i && e.user == t)

def maxNat (l : List Nat) : Nat := l.foldr max 0

/-- Highest allocated category id; SQLite assigns max rowid + 1 next. -/
def maxCatId (s : Ledger) : Nat := maxNat (s.cats.map Cat.cid)

/-- Highest allocated expense id. -/
def maxExpId (s : Ledger) : Nat := maxNat (s.exps.map Exp.eid)

/-- POST /api/categories: no name-collision check, any type string accepted. -/
def createCategory (t : Nat) (name ctype : String) (s : Ledger) : Nat × Ledger :=
  let c : Cat := ⟨maxCatId s + 1, t, name, ctype⟩
  (c.cid, ⟨s.cats ++ [c], s.exps⟩)

/-- GET /api/categories. -/
def listCategories (t : Nat) (s : Ledger) : List Cat :=
  s.cats.filter (fun c => c.user == t)

/-- PATCH /api/categories/cid: type only updated when it is a valid kind. -/
def updateCategory (t cid : Nat) (newName newType : Option String) (s : Ledger) :
    Except String Ledger :=
  match findCat t cid s with
  | none => .error "NotFound"
  | some _ => .ok ⟨s.cats.map (fun c =>
      if c.cid == cid && c.user == t then
        { c with
          name := newName.getD c.name,
          ctype := match newType with
            | some ty => if ty = "expense" ∨ ty = "income" then ty else c.ctype
            | none => c.ctype }
      else c), s.exps⟩

/-- DELETE /api/categories/cid: no cascade to referencing expenses. -/
def deleteCategory (t cid : Nat) (s : Ledger) : Except String Ledger :=
  match findCat t cid s with
  | none => .error "NotFound"
  | some _ => .ok ⟨s.cats.eraseP (fun c => c.cid == cid && c.user == t), s.exps⟩

/-- Request body for POST /api/expenses; a missing key is none, the date is
kept as the raw parsed triple so that validate_date is the validity check. -/
structure ExpenseInput where
  category_id : Option Nat
  amount : Option Rat
  date : Option Date
  merchant : Option String
  account : Option String
  project : Option String
  tags : Option String
  note : Option String
deriving DecidableEq, Repr

/-- POST /api/expenses: required fields, then date, then tenant-scoped
category check. -/
def createExpense (t : Nat) (data : ExpenseInput) (s : Ledger) :
    Except String (Nat × Ledger) :=
  match data.category_id, data.amount, data.date with
  | some cid, some amt, some dt =>
    if validDate dt then
      match findCat t cid s with
      | none => .error "Invalid category"
      | some _ =>
        let e : Exp := ⟨maxExpId s + 1, t, cid, amt, dt,
          data.merchant, data.account, data.project, data.tags, data.note⟩
        .ok (e.eid, ⟨s.cats, s.exps ++ [e]⟩)
    else .error "Invalid date format"
  | _, _, _ => .error "Missing required field"

/-- Partial patch body for PATCH /api/expenses/eid; the outer Option is key
presence, the inner value is stored as sent. -/
structure ExpensePatch where
  category_id : Option Nat
  amount : Option Rat
  date : Option Date
  merchant : Option (Option String)
  account : Option (Option String)
  project : Option (Option String)
  tags : Option (Option String)
  note : Option (Option String)
deriving DecidableEq, Repr

/-- Field overwrite of the patch loop: present fields replace, absent fields
keep; the category_id value is stored without any ownership check. -/
def patchFields (p : ExpensePatch) (dt : Option Date) (e : Exp) : Exp :=
  { e with
    catId := p.category_id.getD e.catId,
    amount := p.amount.getD e.amount,
    merchant := p.merchant.getD e.merchant,
    account := p.account.getD e.account,
    project := p.project.getD e.project,
    tags := p.tags.getD e.tags,
    note := p.note.getD e.note,
    date := dt.getD e.date }

/-- PATCH /api/expenses/eid. -/
def updateExpense (t eid : Nat) (p : ExpensePatch) (s : Ledger) :
    Except String Ledger :=
  match findExp t eid s with
  | none => .error "NotFound"
  | some _ =>
    match p.date with
    | some dt =>
      if validDate dt then
        .ok ⟨s.cats, s.exps.map (fun e =>
          if e.eid == eid && e.user == t then patchFields p (some dt) e else e)⟩
      else .error "Invalid date format"
    | none =>
      .ok ⟨s.cats, s.exps.map (fun e =>
        if e.eid == eid && e.user == t then patchFields p none e else e)⟩

/-- DELETE /api/expenses/eid. -/
def deleteExpense (t eid : Nat) (s : Ledger) : Except String Ledger :=
  match findExp t eid s with
  | none => .error "NotFound"
  | some _ => .ok ⟨s.cats, s.exps.eraseP (fun e => e.eid == eid && e.user == t)⟩

/-- Validation of an optional query date argument. -/
def checkArg : Option Date → Bool
  | none => true
  | some d => decide (validDate d)

/-- Inclusive range filter on the date column. -/
def inRange (fromArg toArg : Option Date) (d : Date) : Bool :=
  (match fromArg with | some f => decide (dateLe f d) | none => true) &&
  (match toArg with | some hi => decide (dateLe d hi) | none => true)

/-- Descending order on the date column used by the expense listing. -/
def dateDesc (a b : Exp) : Prop := dateLe b.date a.date

instance : DecidableRel dateDesc := fun a b => by unfold dateDesc; infer_instance

/-- GET /api/expenses: tenant filter, optional range, order by date desc. -/
def listExpenses (t : Nat) (fromArg toArg : Option Date) (s : Ledger) :
    Except String (List Exp) :=
  if checkArg fromArg && checkArg toArg then
    .ok (List.insertionSort dateDesc
      (s.exps.filter (fun e => e.user == t && inRange fromArg toArg e.date)))
  else .error "Invalid date format"

/-- Join condition of summary and analysis: the expense row joins the unique
category row with the matching primary key, regardless of its tenant. -/
def catTypeIs (s : Ledger) (cid : Nat) (ty : String) : Bool :=
  match findCatById s cid with
  | some c => c.ctype == ty
  | none => false

def sumAmounts (l : List Exp) : Rat := l.foldr (fun e a => e.amount + a) 0

/-- Rows contributing to one summary total: tenant, joined category type,
window bounds. -/
def joinedInWindow (t : Nat) (ty : String) (w : Date × Date) (s : Ledger) :
    List Exp :=
  s.exps.filter (fun e => e.user == t && catTypeIs s e.catId ty &&
    decide (dateLe w.1 e.date) && decide (dateLe e.date w.2))

structure SummaryOut where
  totalIncome : Rat
  totalExpense : Rat
  balance : Rat
  period : Period
  fromDate : Date
  toDate : Date
deriving DecidableEq, Repr

/-- GET /api/summary, after the period membership check. -/
def getSummary (t : Nat) (p : Period) (fromArg toArg : Option Date)
    (today : Date) (s : Ledger) : Except String SummaryOut :=
  match resolveWindow p fromArg toArg today with
  | .error e => .error e
  | .ok w =>
    let inc := sumAmounts (joinedInWindow t "income" w s)
    let ex := sumAmounts (joinedInWindow t "expense" w s)
    .ok ⟨inc, ex, inc - ex, p, w.1, w.2⟩

/-- CSV row as the DictReader and writer see it: a missing column is none. -/
structure Row where
  category : Option String
  amount : Option Rat
  date : Option Date
  rtype : Option String
  merchant : Option String
  account : Option String
  project : Option String
  tags : Option String
  note : Option String
deriving DecidableEq, Repr

/-- Category display name with the Unknown placeholder for a dangling id. -/
def catNameOf (s : Ledger) (cid : Nat) : String :=
  match findCatById s cid with
  | some c => c.name
  | none => "Unknown"

/-- One exported CSV line: optional text renders as the empty string, the
type column is not exported. -/
def exportRowOf (s : Ledger) (e : Exp) : Row :=
  ⟨some (catNameOf s e.catId), some e.amount, some e.date, none,
   some (e.merchant.getD ""), some (e.account.getD ""), some (e.project.getD ""),
   some (e.tags.getD ""), some (e.note.getD "")⟩

/-- GET /api/export. -/
def exportCsv (t : Nat) (fromArg toArg : Option Date) (s : Ledger) :
    Except String (List Row) :=
  if checkArg fromArg && checkArg toArg then
    .ok ((s.exps.filter (fun e => e.user == t && inRange fromArg toArg e.date)).map
      (exportRowOf s))
  else .error "Invalid date format"

/-- Per-row validation of the import loop: required fields in the checked
order, then the date parse. -/
def validateRow (r : Row) : Except String (String × Rat × Date) :=
  match r.category with
  | none => .error "Missing required field: category"
  | some name =>
    match r.amount with
    | none => .error "Missing required field: amount"
    | some amt =>
      match r.date with
      | none => .error "Missing required field: date"
      | some dt =>
        if validDate dt then .ok (name, amt, dt) else .error "Invalid date in row"

/-- Primary keys handed out when pending inserts are flushed. -/
def assignIds (base : Nat) : List Exp → List Exp
  | [] => []
  | e :: es => { e with eid := base + 1 } :: assignIds (base + 1) es

/-- db.session.commit: pending expense inserts become table rows. -/
def commitPending (s : Ledger) (pending : List Exp) : Ledger :=
  ⟨s.cats, s.exps ++ assignIds (maxExpId s) pending⟩

/-- Expense object built from one import row, before an id is assigned. -/
def mkImpExp (t cid : Nat) (amt : Rat) (dt : Date) (r : Row) : Exp :=
  ⟨0, t, cid, amt, dt, r.merchant, r.account, r.project, r.tags, r.note⟩

/-- Import loop of POST /api/import. A new category is committed on the spot,
which also flushes the expenses pending from earlier rows; a validation
failure returns at once, so rows still pending are rolled back at request
teardown while earlier commits stay. -/
def importGo (t : Nat) : Ledger → List Exp → List Row → Except String Unit × Ledger
  | p, pending, [] => (.ok (), commitPending p pending)
  | p, pending, r :: rs =>
    match validateRow r with
    | .error msg => (.error msg, p)
    | .ok (name, amt, dt) =>
      match findCatByName t name p with
      | some c => importGo t p (pending ++ [mkImpExp t c.cid amt dt r]) rs
      | none =>
        let c : Cat := ⟨maxCatId p + 1, t, name, r.rtype.getD "expense"⟩
        let p' := commitPending ⟨p.cats ++ [c], p.exps⟩ pending
        importGo t p' [mkImpExp t c.cid amt dt r] rs

/-- POST /api/import. -/
def importCsv (t : Nat) (s : Ledger) (rows : List Row) :
    Except String Unit × Ledger :=
  importGo t s [] rows

/-- Tenant's categories carrying a given name. -/
def tenantCatsNamed (t : Nat) (n : String) (cats : List Cat) : List Cat :=
  cats.filter (fun c => c.user == t && c.name == n)

/-- Field correspondence between an import row and the expense it produced,
with the referenced category resolved against the final category table. -/
def rowMatches (cats : List Cat) (t : Nat) (r : Row) (e : Exp) : Prop :=
  e.user = t ∧ r.amount = some e.amount ∧ r.date = some e.date ∧
  e.merchant = r.merchant ∧ e.account = r.account ∧ e.project = r.project ∧
  e.tags = r.tags ∧ e.note = r.note ∧
  ∃ cc, cc ∈ cats ∧ cc.user = t ∧ r.category = some cc.name ∧ e.catId = cc.cid

/-- The tuple the round-trip claim compares: date, amount, category display
name, and the optional text fields as stored. -/
structure Tup where
  date : Date
  amount : Rat
  catName : String
  merchant : Option String
  account : Option String
  project : Option String
  tags : Option String
  note : Option String
deriving DecidableEq, Repr

/-- The same tuple with the optional text fields normalised the way the CSV
pipeline renders them: absent text becomes the empty string. -/
structure TupN where
  date : Date
  amount : Rat
  catName : String
  merchant : String
  account : String
  project : String
  tags : String
  note : String
deriving DecidableEq, Repr

/-- Raw round-trip tuple of one expense row. -/
def expTuple (s : Ledger) (e : Exp) : Tup :=
  ⟨e.date, e.amount, catNameOf s e.catId, e.merchant, e.account, e.project,
    e.tags, e.note⟩

/-- Normalised round-trip tuple of one expense row. -/
def expTupleN (s : Ledger) (e : Exp) : TupN :=
  ⟨e.date, e.amount, catNameOf s e.catId, e.merchant.getD "", e.account.getD "",
    e.project.getD "", e.tags.getD "", e.note.getD ""⟩

/-- Grouping dimension after the group_by membership check. -/
inductive GroupBy where
  | categoryId
  | merchant
  | account
  | project
deriving DecidableEq, Repr

/-- Value of the grouping column of one expense row. -/
inductive GVal where
  | gnum (n : Nat)
  | gtext (s : Option String)
deriving DecidableEq, Repr

def groupValOf : GroupBy → Exp → GVal
  | .categoryId, e => .gnum e.catId
  | .merchant, e => .gtext e.merchant
  | .account, e => .gtext e.account
  | .project, e => .gtext e.project

/-- Period bucket columns of one analysis record. -/
abbrev BucketK := Option Nat × Option Nat × Option Nat × Option Date

def bucketOf (p : Period) (d : Date) : BucketK :=
  match p with
  | .daily => (none, none, none, some d)
  | .monthly => (some d.year, some d.month, none, none)
  | .weekly => (some d.year, none, some (sqliteWeekW d), none)
  | .yearly => (some d.year, none, none, none)

/-- Accumulation of one amount into the running group sums; the accumulation
order is inessential, since the grouping stage re-emits the keys in ascending
grouping-term order. -/
def addToGroups (k : BucketK × GVal) (amt : Rat) :
    List ((BucketK × GVal) × Rat) → List ((BucketK × GVal) × Rat)
  | [] => [(k, amt)]
  | (k2, a) :: rest =>
    if k2 = k then (k2, a + amt) :: rest else (k2, a) :: addToGroups k amt rest

/-- One record of the analysis response. -/
structure ARec where
  year : Option Nat
  month : Option Nat
  week : Option Nat
  adate : Option Date
  group : GVal
  total : Rat
deriving DecidableEq, Repr

def recOf : (BucketK × GVal) × Rat → ARec
  | ((b, g), a) => ⟨b.1, b.2.1, b.2.2.1, b.2.2.2, g, a⟩

/-- Python sort key of the analysis response: year, month, week with default
0, then the ISO date string, encoded here as its three components. -/
def sortKey (r : ARec) : List Nat :=
  [r.year.getD 0, r.month.getD 0, r.week.getD 0,
   (r.adate.map Date.year).getD 0, (r.adate.map Date.month).getD 0,
   (r.adate.map Date.day).getD 0]

/-- Lexicographic comparison of equal-length key lists. -/
def leLex : List Nat → List Nat → Bool
  | [], _ => true
  | _ :: _, [] => true
  | a :: xs, b :: ys => if a < b then true else if b < a then false else leLex xs ys

/-- Order relation the final response.sort applies. -/
def recLe (x y2 : ARec) : Prop := leLex (sortKey x) (sortKey y2) = true

instance : DecidableRel recLe := fun a b => by unfold recLe; infer_instance

/-- SQLite value ordering of two grouping-column values: NULL sorts first,
integers before text, text in byte order (BINARY collation; byte order of
UTF-8 equals code-point order). For a fixed group_by only one kind occurs:
integers for category_id, nullable text for the other columns. -/
def gvalLeB : GVal → GVal → Bool
  | .gtext none, _ => true
  | .gnum _, .gtext none => false
  | .gtext (some _), .gtext none => false
  | .gnum a, .gnum b => decide (a ≤ b)
  | .gnum _, .gtext (some _) => true
  | .gtext (some _), .gnum _ => false
  | .gtext (some x), .gtext (some y2) => decide (x.data ≤ y2.data)

/-- Ascending order on the SQL grouping terms, by which SQLite's sorter-based
GROUP BY (no hash aggregation) emits the groups: the period bucket columns
first, then the grouping column's value. The bucket columns are compared
through the same zero-filled component list the Python sort key reads, which
coincides with the SQL grouping-term order for every fixed period. -/
def groupKeyLeB (x y2 : (BucketK × GVal) × Rat) : Bool :=
  if sortKey (recOf x) = sortKey (recOf y2) then gvalLeB x.1.2 y2.1.2
  else leLex (sortKey (recOf x)) (sortKey (recOf y2))

def groupKeyLe (x y2 : (BucketK × GVal) × Rat) : Prop := groupKeyLeB x y2 = true

instance : DecidableRel groupKeyLe := fun a b => by unfold groupKeyLe; infer_instance

/-- The GROUP BY stage: per-key sums computed by the fold (its accumulation
order cannot matter), emitted ascending by the grouping terms as SQLite's
sorter produces them. -/
def analysisCore (t : Nat) (g : GroupBy) (p : Period) (fromArg toArg : Option Date)
    (onlyExpense : Bool) (s : Ledger) : List ARec :=
  let es := s.exps.filter (fun e => e.user == t &&
    (findCatById s e.catId).isSome &&
    (!onlyExpense || catTypeIs s e.catId "expense") &&
    inRange fromArg toArg e.date)
  let grouped := es.foldl (fun acc e =>
    addToGroups (bucketOf p e.date, groupValOf g e) e.amount acc) []
  (List.insertionSort groupKeyLe grouped).map recOf

/-- GET /api/analysis, after the group_by and period membership checks. -/
def getAnalysis (t : Nat) (g : GroupBy) (p : Period) (fromArg toArg : Option Date)
    (onlyExpense : Bool) (s : Ledger) : Except String (List ARec) :=
  if checkArg fromArg && checkArg toArg then
    .ok (List.insertionSort recLe (analysisCore t g p fromArg toArg onlyExpense s))
  else .error "Invalid date format"

instance : IsTotal ARec recLe :=
  ⟨fun x y2 => by
    have key : ∀ xs ys : List Nat, leLex xs ys = true ∨ leLex ys xs = true := by
      intro xs
      induction xs with
      | nil => intro ys; left; rfl
      | cons a l ih =>
        intro ys
        cases ys with
        | nil => left; rfl
        | cons b m =>
          rcases Nat.lt_trichotomy a b with hab | hab | hab
          · left; simp [leLex, hab]
          · subst hab
            have := ih m
            simp [leLex, Nat.lt_irrefl]
            exact this
          · right; simp [leLex, hab]
    exact key (sortKey x) (sortKey y2)⟩

instance : IsTrans ARec recLe :=
  ⟨fun x y2 z hab hbc => by
    have key : ∀ xs ys zs : List Nat, xs.length = ys.length →
        ys.length = zs.length → leLex xs ys = true → leLex ys zs = true →
        leLex xs zs = true := by
      intro xs
      induction xs with
      | nil => intro ys zs _ _ _ _; rfl
      | cons a l ih =>
        intro ys zs h1 h2 h12 h23
        cases ys with
        | nil => simp at h1
        | cons b m =>
          cases zs with
          | nil => simp at h2
          | cons c n =>
            simp only [List.length_cons, Nat.succ.injEq] at h1 h2
            rcases Nat.lt_trichotomy a b with hab | hab | hab
            · rcases Nat.lt_trichotomy b c with hbc | hbc | hbc
              · have hac : a < c := Nat.lt_trans hab hbc
                simp [leLex, hac]
              · subst hbc
                simp [leLex, hab]
              · simp [leLex, Nat.lt_asymm hbc, hbc] at h23
            · subst hab
              simp [leLex, Nat.lt_irrefl] at h12
              rcases Nat.lt_trichotomy a c with hac | hac | hac
              · simp [leLex, hac]
              · subst hac
                simp [leLex, Nat.lt_irrefl] at h23
                simp [leLex, Nat.lt_irrefl]
                exact ih m n h1 h2 h12 h23
              · simp [leLex, Nat.lt_asymm hac, hac] at h23
            · simp [leLex, Nat.lt_asymm hab, hab] at h12
    exact key (sortKey x) (sortKey y2) (sortKey z) rfl rfl hab hbc⟩

/-- Ordering contract exactly as the claim states it: ascending bucket keys
and, inside one bucket, groupByValue in its natural ordering. -/
def c7Ordered (l : List ARec) : Prop :=
  List.Pairwise (fun x y2 => recLe x y2 ∧
    (sortKey x = sortKey y2 → gvalLeB x.group y2.group = true)) l

/-- Sum, stated as the specification words it: over the transactions of the
tenant inside the window whose category is of the given kind. -/
def tenantWindowSum (t : Nat) (kind : String) (w : Date × Date) (s : Ledger) : Rat :=
  sumAmounts ((s.exps.filter (fun e => e.user == t &&
    decide (dateLe w.1 e.date) && decide (dateLe e.date w.2))).filter
    (fun e => catTypeIs s e.catId kind))

theorem daysInMonth_pos (y m : Nat) : 1 ≤ daysInMonth y m := by
  unfold daysInMonth
  split <;> (try split) <;> omega

theorem daysInMonth_le_31 (y m : Nat) : daysInMonth y m ≤ 31 := by
  unfold daysInMonth
  split <;> (try split) <;> omega

set_option maxHeartbeats 1000000 in
theorem daysBeforeYear_succ (y : Nat) (hy : 1 ≤ y) :
    daysBeforeYear (y + 1) = daysBeforeYear y + 365 + (if isLeap y then 1 else 0) := by
  by_cases h : isLeap y = true
  · rw [if_pos h]
    unfold isLeap at h
    simp only [Bool.or_eq_true, Bool.and_eq_true, beq_iff_eq, bne_iff_ne, ne_eq] at h
    unfold daysBeforeYear
    rcases h with ⟨h4, h100⟩ | h400
    · omega
    · omega
  · rw [if_neg h]
    unfold isLeap at h
    simp only [Bool.or_eq_true, Bool.and_eq_true, beq_iff_eq, bne_iff_ne, ne_eq,
      not_or, not_and, not_not] at h
    unfold daysBeforeYear
    omega

theorem daysBeforeMonth_step (y m : Nat) (hm1 : 1 ≤ m) (hm : m ≤ 11) :
    daysBeforeMonth y (m + 1) = daysBeforeMonth y m + daysInMonth y m := by
  interval_cases m <;> simp [daysBeforeMonth, daysInMonth]

theorem daysBeforeMonth_twelve (y : Nat) :
    daysBeforeMonth y 12 = 306 + daysInMonth y 2 := by
  simp [daysBeforeMonth]
  omega

theorem succD_spec (d : Date) (hv : validDate d) :
    validDate (succD d) ∧ dayNumber (succD d) = dayNumber d + 1 := by
  obtain ⟨y, m, day⟩ := d
  obtain ⟨hy, hm1, hm12, hd1, hd2⟩ := hv
  simp only [succD]
  by_cases h1 : day < daysInMonth y m
  · rw [if_pos h1]
    refine ⟨⟨hy, hm1, hm12, by omega, by omega⟩, ?_⟩
    simp only [dayNumber]
    omega
  · rw [if_neg h1]
    by_cases h2 : m < 12
    · rw [if_pos h2]
      have hpos := daysInMonth_pos y (m + 1)
      refine ⟨⟨hy, by omega, by omega, by omega, by omega⟩, ?_⟩
      have hdm := daysBeforeMonth_step y m hm1 (by omega)
      simp only [dayNumber]
      have := daysInMonth_pos y m
      omega
    · rw [if_neg h2]
      have hm : m = 12 := by omega
      subst hm
      have hd31 : daysInMonth y 12 = 31 := rfl
      have hday : day = 31 := by omega
      subst hday
      refine ⟨⟨by omega, by omega, by omega, by omega, by simp [daysInMonth]⟩, ?_⟩
      simp only [dayNumber]
      have h12 := daysBeforeMonth_twelve y
      have hfeb : daysInMonth y 2 = if isLeap y then 29 else 28 := rfl
      have hB : daysBeforeMonth (y + 1) 1 = 0 := by simp [daysBeforeMonth]
      have hY := daysBeforeYear_succ y hy
      by_cases hl : isLeap y = true <;> simp [hl] at hY hfeb <;> omega

theorem predD_spec (d : Date) (hv : validDate d) (hpos : 0 < dayNumber d) :
    validDate (predD d) ∧ dayNumber (predD d) + 1 = dayNumber d := by
  obtain ⟨y, m, day⟩ := d
  obtain ⟨hy, hm1, hm12, hd1, hd2⟩ := hv
  simp only [predD]
  by_cases h1 : 1 < day
  · rw [if_pos h1]
    refine ⟨⟨hy, hm1, hm12, by omega, by omega⟩, ?_⟩
    simp only [dayNumber]
    omega
  · rw [if_neg h1]
    have hday : day = 1 := by omega
    subst hday
    by_cases h2 : 1 < m
    · rw [if_pos h2]
      have hpos' := daysInMonth_pos y (m - 1)
      refine ⟨⟨hy, by omega, by omega, by omega, by omega⟩, ?_⟩
      have hdm : daysBeforeMonth y m = daysBeforeMonth y (m - 1) + daysInMonth y (m - 1) := by
        have hstep := daysBeforeMonth_step y (m - 1) (by omega) (by omega)
        have hmm : m - 1 + 1 = m := by omega
        rw [hmm] at hstep
        exact hstep
      simp only [dayNumber]
      omega
    · rw [if_neg h2]
      have hm : m = 1 := by omega
      subst hm
      have hy2 : 2 ≤ y := by
        by_contra hlt
        have hy1 : y = 1 := by omega
        subst hy1
        simp [dayNumber, daysBeforeYear, daysBeforeMonth] at hpos
      refine ⟨⟨by omega, by omega, by omega, by omega, by simp [daysInMonth]⟩, ?_⟩
      simp only [dayNumber]
      have h12 := daysBeforeMonth_twelve (y - 1)
      have hfeb : daysInMonth (y - 1) 2 = if isLeap (y - 1) then 29 else 28 := rfl
      have hB : daysBeforeMonth y 1 = 0 := by simp [daysBeforeMonth]
      have hY := daysBeforeYear_succ (y - 1) (by omega)
      have hyy : y - 1 + 1 = y := by omega
      rw [hyy] at hY
      by_cases hl : isLeap (y - 1) = true <;> simp [hl] at hY hfeb <;> omega

theorem addDays_spec (n : Nat) (d : Date) (hv : validDate d) :
    validDate (addDays n d) ∧ dayNumber (addDays n d) = dayNumber d + n := by
  induction n generalizing d with
  | zero => exact ⟨hv, rfl⟩
  | succ k ih =>
    have hs := succD_spec d hv
    have := ih (succD d) hs.1
    exact ⟨this.1, by unfold addDays; omega⟩

theorem subDays_spec (n : Nat) (d : Date) (hv : validDate d) (hn : n ≤ dayNumber d) :
    validDate (subDays n d) ∧ dayNumber (subDays n d) = dayNumber d - n := by
  induction n generalizing d with
  | zero => exact ⟨hv, rfl⟩
  | succ k ih =>
    have hp := predD_spec d hv (by omega)
    have := ih (predD d) hp.1 (by omega)
    exact ⟨this.1, by unfold subDays; omega⟩

example : weekday ⟨2018, 12, 31⟩ = 0 := by decide
example : weekday ⟨2024, 6, 5⟩ = 2 := by decide
example : weekday ⟨1, 1, 1⟩ = 0 := by decide

theorem monthly_end_eq (y m : Nat) (hm1 : 1 ≤ m) (hm12 : m ≤ 12) :
    predD (replaceDay1 (addDays 31 ⟨y, m, 1⟩)) = ⟨y, m, daysInMonth y m⟩ := by
  interval_cases m
  · simp [addDays, succD, predD, replaceDay1, daysInMonth]
  · by_cases hl : isLeap y = true <;>
      simp [addDays, succD, predD, replaceDay1, daysInMonth, hl]
  · simp [addDays, succD, predD, replaceDay1, daysInMonth]
  · simp [addDays, succD, predD, replaceDay1, daysInMonth]
  · simp [addDays, succD, predD, replaceDay1, daysInMonth]
  · simp [addDays, succD, predD, replaceDay1, daysInMonth]
  · simp [addDays, succD, predD, replaceDay1, daysInMonth]
  · simp [addDays, succD, predD, replaceDay1, daysInMonth]
  · simp [addDays, succD, predD, replaceDay1, daysInMonth]
  · simp [addDays, succD, predD, replaceDay1, daysInMonth]
  · simp [addDays, succD, predD, replaceDay1, daysInMonth]
  · simp [addDays, succD, predD, replaceDay1, daysInMonth]

example : weeklyKey ⟨2018, 12, 31⟩ = (2018, 53) := by decide
example : isoWeekKey ⟨2018, 12, 31⟩ = (2019, 1) := by decide
example : weeklyKey ⟨2024, 6, 5⟩ = (2024, 23) := by decide
example : isoWeekKey ⟨2024, 6, 5⟩ = (2024, 23) := by decide
example : weeklyKey ⟨2015, 1, 3⟩ = (2015, 0) := by decide

theorem joinedInWindow_eq_tenantWindowSum (t : Nat) (ty : String) (w : Date × Date)
    (s : Ledger) :
    sumAmounts (joinedInWindow t ty w s) = tenantWindowSum t ty w s := by
  unfold joinedInWindow tenantWindowSum
  rw [List.filter_filter]
  congr 1
  apply List.filter_congr
  intro e _
  cases h1 : (e.user == t) <;> cases h2 : catTypeIs s e.catId ty <;>
    cases h3 : decide (dateLe w.1 e.date) <;> cases h4 : decide (dateLe e.date w.2) <;>
    simp [h1, h2, h3, h4]

theorem sumAmounts_nonneg (l : List Exp) (h : ∀ e ∈ l, 0 ≤ e.amount) :
    0 ≤ sumAmounts l := by
  induction l with
  | nil => simp [sumAmounts]
  | cons e es ih =>
    have he := h e (by simp)
    have hes := ih (fun x hx => h x (by simp [hx]))
    unfold sumAmounts at hes ⊢
    simp only [List.foldr_cons]
    exact add_nonneg he hes

/-- C10: when exactly one of the from/to bounds is supplied to the summary
endpoint, the supplied bound is silently ignored: the resolved window is the
default window of the period computed from today, and the summary result is
the one of a call without any bounds. -/
theorem c10_single_bound_ignored (t : Nat) (p : Period) (f : Date) (today : Date)
    (s : Ledger) :
    resolveWindow p (some f) none today = .ok (defaultWindow p today) ∧
    resolveWindow p none (some f) today = .ok (defaultWindow p today) ∧
    getSummary t p (some f) none today s = getSummary t p none none today s ∧
    getSummary t p none (some f) today s = getSummary t p none none today s :=
  ⟨rfl, rfl, rfl, rfl⟩

/-- C5 fails as stated: the weekly bucket the analysis endpoint computes for
2018-12-31 is (2018, 53), the SQLite strftime week of the calendar year, not
the ISO 8601 key (2019, 1) the claim requires for a Monday December 31. -/
theorem c5_counterexample :
    weeklyKey ⟨2018, 12, 31⟩ ≠ isoWeekKey ⟨2018, 12, 31⟩ ∧
    bucketOf .weekly ⟨2018, 12, 31⟩ = (some 2018, none, some 53, none) := by
  exact ⟨by decide, by decide⟩

/-- C5 amended: the weekly bucket key pairs the calendar year with the SQLite
strftime W week number (Monday-start weeks counted from the first Monday of
the year, earlier days in week 0); 2018-12-31, a Monday, is therefore bucketed
as week 53 of 2018 while ISO 8601 places it in week 1 of 2019, and the two
schemes agree away from year boundaries, for instance on 2024-06-05. -/
theorem c5_weekly_key_is_sqlite_week :
    (∀ d : Date, weeklyKey d = (d.year, sqliteWeekW d) ∧
      bucketOf .weekly d = (some d.year, none, some (sqliteWeekW d), none)) ∧
    weeklyKey ⟨2018, 12, 31⟩ = (2018, 53) ∧
    isoWeekKey ⟨2018, 12, 31⟩ = (2019, 1) ∧
    weeklyKey ⟨2024, 6, 5⟩ = isoWeekKey ⟨2024, 6, 5⟩ ∧
    weeklyKey ⟨2015, 1, 3⟩ = (2015, 0) := by
  exact ⟨fun d => ⟨rfl, rfl⟩, by decide, by decide, by decide, by decide⟩

/-- C1 fails on the code: importing a batch whose second row has no date
returns an error, yet the category created and committed for the first row
stays in the table, so the failed import is not all-or-nothing. -/
theorem c1_failed_import_keeps_category :
    importCsv 1 ⟨[], []⟩
      [⟨some "A", some 10, some ⟨2024, 1, 1⟩, none, none, none, none, none, none⟩,
       ⟨some "B", some 5, none, none, none, none, none, none, none⟩] =
    (.error "Missing required field: date", ⟨[⟨1, 1, "A", "expense"⟩], []⟩) := rfl

/-- C3 fails on the code: the expense PATCH handler stores any category_id
without an ownership or existence check, so tenant 1 successfully points its
expense at category 2 of tenant 2, an id its own lookup reports as absent,
while the create path does reject that same id. -/
theorem c3_update_skips_category_check :
    updateExpense 1 1 ⟨some 2, none, none, none, none, none, none, none⟩
      ⟨[⟨1, 1, "own", "expense"⟩, ⟨2, 2, "other", "expense"⟩],
       [⟨1, 1, 1, 5, ⟨2024, 1, 10⟩, none, none, none, none, none⟩]⟩ =
    .ok ⟨[⟨1, 1, "own", "expense"⟩, ⟨2, 2, "other", "expense"⟩],
         [⟨1, 1, 2, 5, ⟨2024, 1, 10⟩, none, none, none, none, none⟩]⟩ ∧
    findCat 1 2 ⟨[⟨1, 1, "own", "expense"⟩, ⟨2, 2, "other", "expense"⟩],
       [⟨1, 1, 1, 5, ⟨2024, 1, 10⟩, none, none, none, none, none⟩]⟩ = none ∧
    createExpense 1 ⟨some 2, some 5, some ⟨2024, 1, 10⟩, none, none, none, none, none⟩
      ⟨[⟨1, 1, "own", "expense"⟩, ⟨2, 2, "other", "expense"⟩],
       [⟨1, 1, 1, 5, ⟨2024, 1, 10⟩, none, none, none, none, none⟩]⟩ =
    .error "Invalid category" :=
  ⟨rfl, rfl, rfl⟩

/-- C4 amended: for every summary call that succeeds, totalIncome and
totalExpense are the sums of the amounts of the tenant transactions inside the
resolved window whose joined category kind is income respectively expense, and
the balance equals their difference exactly; the totals are moreover
non-negative whenever every stored amount is non-negative, a sign restriction
the code itself never enforces. -/
theorem c4_summary_totals (t : Nat) (p : Period) (fa ta : Option Date)
    (today : Date) (s : Ledger) (r : SummaryOut)
    (hok : getSummary t p fa ta today s = .ok r) :
    r.totalIncome = tenantWindowSum t "income" (r.fromDate, r.toDate) s ∧
    r.totalExpense = tenantWindowSum t "expense" (r.fromDate, r.toDate) s ∧
    r.balance = r.totalIncome - r.totalExpense ∧
    ((∀ e ∈ s.exps, 0 ≤ e.amount) →
      0 ≤ r.totalIncome ∧ 0 ≤ r.totalExpense) := by
  unfold getSummary at hok
  cases hres : resolveWindow p fa ta today with
  | error msg => rw [hres] at hok; cases hok
  | ok w =>
    rw [hres] at hok
    simp only [Except.ok.injEq] at hok
    subst hok
    refine ⟨joinedInWindow_eq_tenantWindowSum t "income" w s,
      joinedInWindow_eq_tenantWindowSum t "expense" w s, rfl, fun hpos => ⟨?_, ?_⟩⟩
    · exact sumAmounts_nonneg _ (fun e he => hpos e (List.mem_of_mem_filter he))
    · exact sumAmounts_nonneg _ (fun e he => hpos e (List.mem_of_mem_filter he))

/-- C4 fails as stated on the code: amounts are never sign-checked, so a
stored income transaction of amount -5 makes totalIncome negative. -/
theorem c4_counterexample :
    getSummary 1 .monthly (some ⟨2024, 3, 1⟩) (some ⟨2024, 3, 31⟩) ⟨2024, 3, 15⟩
      ⟨[⟨1, 1, "pay", "income"⟩],
       [⟨1, 1, 1, -5, ⟨2024, 3, 10⟩, none, none, none, none, none⟩]⟩ =
    .ok ⟨-5, 0, -5, .monthly, ⟨2024, 3, 1⟩, ⟨2024, 3, 31⟩⟩ ∧
    ¬ (0 ≤ (-5 : Rat)) := by
  constructor
  · simp +decide [getSummary, resolveWindow, joinedInWindow, sumAmounts,
      catTypeIs, findCatById, validDate, daysInMonth, isLeap, dateLt, dateLe]
  · norm_num

/-- C4 witness: the amended statement instantiated at a tenant with one
income transaction of amount 5 inside an explicit March 2024 window. -/
theorem c4_summary_totals_witness :
    (⟨5, 0, 5, .monthly, ⟨2024, 3, 1⟩, ⟨2024, 3, 31⟩⟩ : SummaryOut).totalIncome =
      tenantWindowSum 1 "income" (⟨2024, 3, 1⟩, ⟨2024, 3, 31⟩)
        ⟨[⟨1, 1, "pay", "income"⟩],
         [⟨1, 1, 1, 5, ⟨2024, 3, 10⟩, none, none, none, none, none⟩]⟩ ∧
    (⟨5, 0, 5, .monthly, ⟨2024, 3, 1⟩, ⟨2024, 3, 31⟩⟩ : SummaryOut).totalExpense =
      tenantWindowSum 1 "expense" (⟨2024, 3, 1⟩, ⟨2024, 3, 31⟩)
        ⟨[⟨1, 1, "pay", "income"⟩],
         [⟨1, 1, 1, 5, ⟨2024, 3, 10⟩, none, none, none, none, none⟩]⟩ ∧
    (⟨5, 0, 5, .monthly, ⟨2024, 3, 1⟩, ⟨2024, 3, 31⟩⟩ : SummaryOut).balance =
      (⟨5, 0, 5, .monthly, ⟨2024, 3, 1⟩, ⟨2024, 3, 31⟩⟩ : SummaryOut).totalIncome -
      (⟨5, 0, 5, .monthly, ⟨2024, 3, 1⟩, ⟨2024, 3, 31⟩⟩ : SummaryOut).totalExpense ∧
    ((∀ e ∈ ([⟨1, 1, 1, 5, ⟨2024, 3, 10⟩, none, none, none, none, none⟩] : List Exp),
        0 ≤ e.amount) →
      0 ≤ (⟨5, 0, 5, .monthly, ⟨2024, 3, 1⟩, ⟨2024, 3, 31⟩⟩ : SummaryOut).totalIncome ∧
      0 ≤ (⟨5, 0, 5, .monthly, ⟨2024, 3, 1⟩, ⟨2024, 3, 31⟩⟩ : SummaryOut).totalExpense) :=
  c4_summary_totals 1 .monthly (some ⟨2024, 3, 1⟩) (some ⟨2024, 3, 31⟩)
    ⟨2024, 3, 15⟩
    ⟨[⟨1, 1, "pay", "income"⟩],
     [⟨1, 1, 1, 5, ⟨2024, 3, 10⟩, none, none, none, none, none⟩]⟩
    ⟨5, 0, 5, .monthly, ⟨2024, 3, 1⟩, ⟨2024, 3, 31⟩⟩
    (by simp +decide [getSummary, resolveWindow, joinedInWindow, sumAmounts,
      catTypeIs, findCatById, validDate, daysInMonth, isLeap, dateLt, dateLe])

seal addDays subDays succD predD dayNumber validDate weekday in
theorem weekly_window_spec (d : Date) (hv : validDate d) :
    weekday (subDays (weekday d) d) = 0 ∧
    weekday (addDays 6 (subDays (weekday d) d)) = 6 ∧
    validDate (subDays (weekday d) d) ∧
    validDate (addDays 6 (subDays (weekday d) d)) ∧
    dayNumber (subDays (weekday d) d) ≤ dayNumber d ∧
    dayNumber d ≤ dayNumber (subDays (weekday d) d) + 6 := by
  have hwd : weekday d ≤ dayNumber d := by
    unfold weekday
    exact Nat.mod_le _ _
  have hsub := subDays_spec (weekday d) d hv hwd
  have hadd := addDays_spec 6 (subDays (weekday d) d) hsub.1
  obtain ⟨hsv, hs⟩ := hsub
  obtain ⟨hav, ha⟩ := hadd
  refine ⟨?_, ?_, hsv, hav, ?_, ?_⟩
  · unfold weekday at hs ⊢
    rw [hs]
    omega
  · unfold weekday at hs ha ⊢
    rw [ha, hs]
    omega
  · unfold weekday at hs ⊢
    rw [hs]
    omega
  · unfold weekday at hs ⊢
    rw [hs]
    omega

seal addDays subDays succD predD in
/-- C6: with no explicit range the summary endpoint resolves, for every valid
reference date, daily to the single-day window of today, weekly to the Monday
through Sunday of the week containing today, monthly to the first through last
calendar day of the month of today (for every month length, February in leap
years included), and yearly to January 1 through December 31 of the year. -/
theorem c6_default_windows (today : Date) (hv : validDate today) :
    defaultWindow .daily today = (today, today) ∧
    (defaultWindow .weekly today =
        (subDays (weekday today) today, addDays 6 (subDays (weekday today) today)) ∧
      weekday (subDays (weekday today) today) = 0 ∧
      weekday (addDays 6 (subDays (weekday today) today)) = 6 ∧
      validDate (subDays (weekday today) today) ∧
      validDate (addDays 6 (subDays (weekday today) today)) ∧
      dayNumber (subDays (weekday today) today) ≤ dayNumber today ∧
      dayNumber today ≤ dayNumber (subDays (weekday today) today) + 6) ∧
    (defaultWindow .monthly today =
        (⟨today.year, today.month, 1⟩,
         ⟨today.year, today.month, daysInMonth today.year today.month⟩) ∧
      validDate ⟨today.year, today.month, daysInMonth today.year today.month⟩ ∧
      ∀ k : Nat, ¬ validDate ⟨today.year, today.month,
          daysInMonth today.year today.month + k + 1⟩) ∧
    defaultWindow .yearly today = (⟨today.year, 1, 1⟩, ⟨today.year, 12, 31⟩) := by
  have hweek := weekly_window_spec today hv
  obtain ⟨y, m, day⟩ := today
  obtain ⟨hy, hm1, hm12, hd1, hd2⟩ := hv
  refine ⟨rfl, ?_, ?_, rfl⟩
  · exact ⟨rfl, hweek.1, hweek.2.1, hweek.2.2.1, hweek.2.2.2.1,
      hweek.2.2.2.2.1, hweek.2.2.2.2.2⟩
  · refine ⟨?_, ⟨hy, hm1, hm12, daysInMonth_pos y m, le_refl _⟩, ?_⟩
    · have h0 : replaceDay1 (⟨y, m, day⟩ : Date) = ⟨y, m, 1⟩ := rfl
      show (replaceDay1 ⟨y, m, day⟩,
        predD (replaceDay1 (addDays 31 (replaceDay1 ⟨y, m, day⟩)))) = _
      rw [h0, monthly_end_eq y m hm1 hm12]
    · intro k hk
      obtain ⟨_, _, _, _, hle⟩ := hk
      omega

theorem filter_false_of_all {α} (p : α → Bool) :
    ∀ l : List α, (∀ a ∈ l, p a = false) → l.filter p = []
  | [], _ => rfl
  | a :: l, h => by
    have ha := h a (by simp)
    have hl := filter_false_of_all p l (fun x hx => h x (by simp [hx]))
    simp [List.filter_cons, ha, hl]

theorem find?_append_first {α} (p : α → Bool) (l₁ l₂ : List α) :
    (l₁ ++ l₂).find? p =
      match l₁.find? p with
      | some x => some x
      | none => l₂.find? p := by
  induction l₁ with
  | nil => simp
  | cons a l ih => by_cases hp : p a <;> simp [List.find?_cons, hp, ih]

theorem findCatById_ext (t : Nat) (s : Ledger) (cats2 : List Cat) (exps2 : List Exp)
    (h2 : ∀ c ∈ cats2, ∀ e ∈ s.exps, e.user = t → e.catId ≠ c.cid)
    (e : Exp) (hee : e ∈ s.exps) (ht : e.user = t) :
    findCatById ⟨s.cats ++ cats2, s.exps ++ exps2⟩ e.catId = findCatById s e.catId := by
  unfold findCatById
  show (s.cats ++ cats2).find? _ = _
  rw [find?_append_first]
  cases hfs : s.cats.find? (fun c => c.cid == e.catId) with
  | some c => rfl
  | none =>
    apply List.find?_eq_none.mpr
    intro c hc
    simp only [beq_iff_eq]
    intro hcc
    exact absurd hcc.symm (h2 c hc e hee ht)

theorem catTypeIs_ext (t : Nat) (s : Ledger) (cats2 : List Cat) (exps2 : List Exp)
    (h2 : ∀ c ∈ cats2, ∀ e ∈ s.exps, e.user = t → e.catId ≠ c.cid)
    (e : Exp) (hee : e ∈ s.exps) (ht : e.user = t) (ty : String) :
    catTypeIs ⟨s.cats ++ cats2, s.exps ++ exps2⟩ e.catId ty = catTypeIs s e.catId ty := by
  unfold catTypeIs
  rw [findCatById_ext t s cats2 exps2 h2 e hee ht]

theorem joinedInWindow_ext (t : Nat) (ty : String) (w : Date × Date) (s : Ledger)
    (cats2 : List Cat) (exps2 : List Exp)
    (he : ∀ e ∈ exps2, e.user ≠ t)
    (h2 : ∀ c ∈ cats2, ∀ e ∈ s.exps, e.user = t → e.catId ≠ c.cid) :
    joinedInWindow t ty w ⟨s.cats ++ cats2, s.exps ++ exps2⟩ = joinedInWindow t ty w s := by
  unfold joinedInWindow
  show (s.exps ++ exps2).filter _ = _
  rw [List.filter_append]
  rw [filter_false_of_all _ exps2 (by
    intro e hee
    have := he e hee
    simp [this])]
  rw [List.append_nil]
  apply List.filter_congr
  intro e hee
  by_cases hu : e.user = t
  · rw [catTypeIs_ext t s cats2 exps2 h2 e hee hu]
  · have hne : (e.user == t) = false := by simp [hu]
    simp [hne]

/-- C2 fails as stated: export resolves category names through the global
primary key, so a tenant-1 transaction left dangling by a category delete
renders as Unknown in one state but as the name of a tenant-2 category that
occupies the same id in a state that differs only in tenant-2 rows. -/
theorem c2_counterexample :
    exportCsv 1 none none
      ⟨[], [⟨1, 1, 1, 5, ⟨2024, 1, 2⟩, none, none, none, none, none⟩]⟩ =
      .ok [⟨some "Unknown", some 5, some ⟨2024, 1, 2⟩, none,
            some "", some "", some "", some "", some ""⟩] ∧
    exportCsv 1 none none
      ⟨[⟨1, 2, "Secret", "expense"⟩],
       [⟨1, 1, 1, 5, ⟨2024, 1, 2⟩, none, none, none, none, none⟩]⟩ =
      .ok [⟨some "Secret", some 5, some ⟨2024, 1, 2⟩, none,
            some "", some "", some "", some "", some ""⟩] ∧
    (∀ c ∈ [(⟨1, 2, "Secret", "expense"⟩ : Cat)], c.user ≠ 1) :=
  ⟨rfl, rfl, by decide⟩

/-- C2 amended: every operation is tenant-scoped. A lookup, update or delete
whose id is absent or owned by another tenant behaves identically to a
nonexistent id, and category listing, expense listing, summary, analysis and
export for tenant t are unchanged by arbitrary rows of other tenants as long
as no other-tenant category occupies an id that a tenant-t transaction still
references; freshly allocated ids and such dangling references are the two
leaks the code keeps. -/
theorem c2_tenant_isolation (t : Nat) (s : Ledger) (cats2 : List Cat)
    (exps2 : List Exp)
    (hc : ∀ c ∈ cats2, c.user ≠ t) (he : ∀ e ∈ exps2, e.user ≠ t)
    (h2 : ∀ c ∈ cats2, ∀ e ∈ s.exps, e.user = t → e.catId ≠ c.cid) :
    (∀ i, (∀ e ∈ s.exps, e.eid = i → e.user ≠ t) → findExp t i s = none) ∧
    (∀ i, (∀ c ∈ s.cats, c.cid = i → c.user ≠ t) → findCat t i s = none) ∧
    (∀ i p, findExp t i s = none → updateExpense t i p s = .error "NotFound" ∧
        deleteExpense t i s = .error "NotFound") ∧
    (∀ i nn nt, findCat t i s = none →
        updateCategory t i nn nt s = .error "NotFound" ∧
        deleteCategory t i s = .error "NotFound") ∧
    listCategories t ⟨s.cats ++ cats2, s.exps ++ exps2⟩ = listCategories t s ∧
    (∀ fa ta, listExpenses t fa ta ⟨s.cats ++ cats2, s.exps ++ exps2⟩ =
        listExpenses t fa ta s) ∧
    (∀ p fa ta today, getSummary t p fa ta today ⟨s.cats ++ cats2, s.exps ++ exps2⟩ =
        getSummary t p fa ta today s) ∧
    (∀ g p fa ta oe, getAnalysis t g p fa ta oe ⟨s.cats ++ cats2, s.exps ++ exps2⟩ =
        getAnalysis t g p fa ta oe s) ∧
    (∀ fa ta, exportCsv t fa ta ⟨s.cats ++ cats2, s.exps ++ exps2⟩ =
        exportCsv t fa ta s) := by
  refine ⟨?_, ?_, ?_, ?_, ?_, ?_, ?_, ?_, ?_⟩
  · intro i hno
    apply List.find?_eq_none.mpr
    intro e hee
    simp only [Bool.and_eq_true, beq_iff_eq, not_and]
    intro heid
    exact fun hu => hno e hee heid hu
  · intro i hno
    apply List.find?_eq_none.mpr
    intro c hcc
    simp only [Bool.and_eq_true, beq_iff_eq, not_and]
    intro hcid
    exact fun hu => hno c hcc hcid hu
  · intro i p hnone
    unfold updateExpense deleteExpense
    rw [hnone]
    exact ⟨rfl, rfl⟩
  · intro i nn nt hnone
    unfold updateCategory deleteCategory
    rw [hnone]
    exact ⟨rfl, rfl⟩
  · unfold listCategories
    show (s.cats ++ cats2).filter _ = _
    rw [List.filter_append]
    rw [filter_false_of_all _ cats2 (by
      intro c hcc
      have := hc c hcc
      simp [this])]
    rw [List.append_nil]
  · intro fa ta
    unfold listExpenses
    show (if _ then Except.ok (List.insertionSort dateDesc
        ((s.exps ++ exps2).filter _)) else _) = _
    rw [List.filter_append]
    rw [filter_false_of_all _ exps2 (by
      intro e hee
      have := he e hee
      simp [this])]
    rw [List.append_nil]
  · intro p fa ta today
    have hJ : ∀ (w : Date × Date) (ty : String),
        joinedInWindow t ty w ⟨s.cats ++ cats2, s.exps ++ exps2⟩ =
          joinedInWindow t ty w s :=
      fun w ty => joinedInWindow_ext t ty w s cats2 exps2 he h2
    unfold getSummary
    simp only [hJ]
  · intro g p fa ta oe
    unfold getAnalysis
    have hcore : analysisCore t g p fa ta oe ⟨s.cats ++ cats2, s.exps ++ exps2⟩ =
        analysisCore t g p fa ta oe s := by
      have hfil : (s.exps ++ exps2).filter (fun e => e.user == t &&
          (findCatById ⟨s.cats ++ cats2, s.exps ++ exps2⟩ e.catId).isSome &&
          (!oe || catTypeIs ⟨s.cats ++ cats2, s.exps ++ exps2⟩ e.catId "expense") &&
          inRange fa ta e.date) =
          s.exps.filter (fun e => e.user == t && (findCatById s e.catId).isSome &&
          (!oe || catTypeIs s e.catId "expense") && inRange fa ta e.date) := by
        rw [List.filter_append]
        rw [filter_false_of_all _ exps2 (by
          intro e hee
          have := he e hee
          simp [this])]
        rw [List.append_nil]
        apply List.filter_congr
        intro e hee
        by_cases hu : e.user = t
        · rw [findCatById_ext t s cats2 exps2 h2 e hee hu,
            catTypeIs_ext t s cats2 exps2 h2 e hee hu]
        · have hne : (e.user == t) = false := by simp [hu]
          simp [hne]
      unfold analysisCore
      dsimp only
      rw [hfil]
    rw [hcore]
  · intro fa ta
    unfold exportCsv
    have hfil : (s.exps ++ exps2).filter (fun e => e.user == t &&
        inRange fa ta e.date) =
        s.exps.filter (fun e => e.user == t && inRange fa ta e.date) := by
      rw [List.filter_append]
      rw [filter_false_of_all _ exps2 (by
        intro e hee
        have := he e hee
        simp [this])]
      rw [List.append_nil]
    show (if _ then Except.ok (((s.exps ++ exps2).filter _).map _) else _) = _
    rw [hfil]
    have hmap : (s.exps.filter (fun e => e.user == t && inRange fa ta e.date)).map
        (exportRowOf ⟨s.cats ++ cats2, s.exps ++ exps2⟩) =
        (s.exps.filter (fun e => e.user == t && inRange fa ta e.date)).map
        (exportRowOf s) := by
      apply List.map_congr_left
      intro e hee
      have hmem := List.mem_filter.mp hee
      have hu : e.user = t := by
        have := hmem.2
        simp only [Bool.and_eq_true, beq_iff_eq] at this
        exact this.1
      unfold exportRowOf catNameOf
      rw [findCatById_ext t s cats2 exps2 h2 e hmem.1 hu]
    rw [hmap]

/-- C2 witness: the amended statement instantiated at tenant 1 with one
category and one expense, extended by one tenant-2 category and expense. -/
theorem c2_tenant_isolation_witness :
    getSummary 1 .yearly none none ⟨2024, 5, 5⟩
      ⟨[⟨1, 1, "own", "expense"⟩] ++ [⟨2, 2, "other", "income"⟩],
       [⟨1, 1, 1, 5, ⟨2024, 1, 2⟩, none, none, none, none, none⟩] ++
         [⟨2, 2, 2, 7, ⟨2024, 1, 3⟩, none, none, none, none, none⟩]⟩ =
    getSummary 1 .yearly none none ⟨2024, 5, 5⟩
      ⟨[⟨1, 1, "own", "expense"⟩],
       [⟨1, 1, 1, 5, ⟨2024, 1, 2⟩, none, none, none, none, none⟩]⟩ ∧
    exportCsv 1 none none
      ⟨[⟨1, 1, "own", "expense"⟩] ++ [⟨2, 2, "other", "income"⟩],
       [⟨1, 1, 1, 5, ⟨2024, 1, 2⟩, none, none, none, none, none⟩] ++
         [⟨2, 2, 2, 7, ⟨2024, 1, 3⟩, none, none, none, none, none⟩]⟩ =
    exportCsv 1 none none
      ⟨[⟨1, 1, "own", "expense"⟩],
       [⟨1, 1, 1, 5, ⟨2024, 1, 2⟩, none, none, none, none, none⟩]⟩ :=
  ⟨(c2_tenant_isolation 1
      ⟨[⟨1, 1, "own", "expense"⟩],
       [⟨1, 1, 1, 5, ⟨2024, 1, 2⟩, none, none, none, none, none⟩]⟩
      [⟨2, 2, "other", "income"⟩]
      [⟨2, 2, 2, 7, ⟨2024, 1, 3⟩, none, none, none, none, none⟩]
      (by decide) (by decide) (by decide)).2.2.2.2.2.2.1 .yearly none none ⟨2024, 5, 5⟩,
   (c2_tenant_isolation 1
      ⟨[⟨1, 1, "own", "expense"⟩],
       [⟨1, 1, 1, 5, ⟨2024, 1, 2⟩, none, none, none, none, none⟩]⟩
      [⟨2, 2, "other", "income"⟩]
      [⟨2, 2, 2, 7, ⟨2024, 1, 3⟩, none, none, none, none, none⟩]
      (by decide) (by decide) (by decide)).2.2.2.2.2.2.2.2 none none⟩

theorem validateRow_ok_inv (r : Row) (name : String) (amt : Rat) (dt : Date)
    (h : validateRow r = .ok (name, amt, dt)) :
    r.category = some name ∧ r.amount = some amt ∧ r.date = some dt ∧ validDate dt := by
  obtain ⟨rc, ra, rd, rt, rm, racc, rp, rtg, rn⟩ := r
  cases rc with
  | none => simp [validateRow] at h
  | some n =>
    cases ra with
    | none => simp [validateRow] at h
    | some a =>
      cases rd with
      | none => simp [validateRow] at h
      | some d =>
        simp only [validateRow] at h
        split at h
        · injection h with h2
          simp only [Prod.mk.injEq] at h2
          obtain ⟨h3, h4, h5⟩ := h2
          subst h3; subst h4; subst h5
          refine ⟨rfl, rfl, rfl, ?_⟩
          assumption
        · cases h

theorem maxNat_mem_le (l : List Nat) : ∀ x ∈ l, x ≤ maxNat l := by
  induction l with
  | nil => intro x hx; cases hx
  | cons a l ih =>
    intro x hx
    unfold maxNat
    simp only [List.foldr_cons]
    rcases List.mem_cons.mp hx with rfl | hx2
    · exact le_max_left _ _
    · exact le_trans (ih x hx2) (le_max_right _ _)

theorem maxNat_append (l1 l2 : List Nat) :
    maxNat (l1 ++ l2) = max (maxNat l1) (maxNat l2) := by
  induction l1 with
  | nil => simp [maxNat]
  | cons a l ih =>
    unfold maxNat
    simp only [List.cons_append, List.foldr_cons]
    unfold maxNat at ih
    rw [ih]
    exact (Nat.max_assoc a _ _).symm

theorem assignIds_length (b : Nat) (l : List Exp) :
    (assignIds b l).length = l.length := by
  induction l generalizing b with
  | nil => rfl
  | cons e es ih => simp [assignIds, ih]

theorem assignIds_append (b : Nat) (l1 l2 : List Exp) :
    assignIds b (l1 ++ l2) = assignIds b l1 ++ assignIds (b + l1.length) l2 := by
  induction l1 generalizing b with
  | nil => simp [assignIds]
  | cons e es ih =>
    show { e with eid := b + 1 } :: assignIds (b + 1) (es ++ l2) =
      ({ e with eid := b + 1 } :: assignIds (b + 1) es) ++
        assignIds (b + (es.length + 1)) l2
    rw [ih (b + 1)]
    have harith : b + 1 + es.length = b + (es.length + 1) := by omega
    rw [harith]
    rfl

theorem assignIds_get (l : List Exp) (b i : Nat) (hi : i < l.length)
    (hi2 : i < (assignIds b l).length) :
    (assignIds b l).get ⟨i, hi2⟩ = {l.get ⟨i, hi⟩ with eid := b + i + 1} := by
  induction l generalizing b i with
  | nil => cases hi
  | cons e es ih =>
    cases i with
    | zero => rfl
    | succ j =>
      have hj : j < es.length := by simpa using hi
      have hj2 : j < (assignIds (b + 1) es).length := by
        rw [assignIds_length]; exact hj
      show (assignIds (b + 1) es).get ⟨j, hj2⟩ = _
      rw [ih (b + 1) j hj hj2]
      have harith : b + 1 + j + 1 = b + (j + 1) + 1 := by omega
      rw [harith]
      rfl

theorem maxNat_assignIds (l : List Exp) (b : Nat) :
    maxNat ((assignIds b l).map Exp.eid) =
      if l.length = 0 then 0 else b + l.length := by
  induction l generalizing b with
  | nil => simp [assignIds, maxNat]
  | cons e es ih =>
    simp only [assignIds, List.map_cons, List.length_cons]
    unfold maxNat
    simp only [List.foldr_cons]
    have hih := ih (b + 1)
    unfold maxNat at hih
    rw [hih]
    by_cases hes : es.length = 0
    · simp [hes]
    · rw [if_neg hes, if_neg (by omega)]
      rw [Nat.max_eq_right (by omega)]
      omega

theorem maxExpId_commitPending (p : Ledger) (pend : List Exp) :
    maxExpId (commitPending p pend) = maxExpId p + pend.length := by
  have h1 : (commitPending p pend).exps = p.exps ++ assignIds (maxExpId p) pend := rfl
  have h2 : maxNat (List.map Exp.eid p.exps) = maxExpId p := rfl
  unfold maxExpId
  rw [h1, List.map_append, maxNat_append, maxNat_assignIds, h2]
  by_cases h : pend.length = 0
  · simp [h]
  · rw [if_neg h, Nat.max_eq_right (by omega)]

theorem find?_cid_of_nodup (cats : List Cat) (hnd : (cats.map Cat.cid).Nodup)
    (c : Cat) (hc : c ∈ cats) :
    cats.find? (fun c2 => c2.cid == c.cid) = some c := by
  induction cats with
  | nil => cases hc
  | cons a l ih =>
    rw [List.map_cons] at hnd
    have hnd2 := List.nodup_cons.mp hnd
    rcases List.mem_cons.mp hc with rfl | hc2
    · rw [List.find?_cons_of_pos _ (by simp)]
    · have hane : a.cid ≠ c.cid := by
        intro heq
        have hcin : c.cid ∈ l.map Cat.cid := List.mem_map_of_mem _ hc2
        rw [heq] at hnd2
        exact hnd2.1 hcin
      rw [List.find?_cons_of_neg _ (by simp [hane])]
      exact ih hnd2.2 hc2

theorem findCatByName_some_inv (t : Nat) (n : String) (s : Ledger) (c : Cat)
    (h : findCatByName t n s = some c) :
    c ∈ s.cats ∧ c.user = t ∧ c.name = n := by
  have hmem := List.mem_of_find?_eq_some h
  have hpred := List.find?_some h
  simp only [Bool.and_eq_true, beq_iff_eq] at hpred
  exact ⟨hmem, hpred.1, hpred.2⟩

theorem leLex_refl (xs : List Nat) : leLex xs xs = true := by
  induction xs with
  | nil => rfl
  | cons a l ih =>
    simp [leLex, Nat.lt_irrefl]
    exact ih

theorem leLex_antisymm : ∀ xs ys : List Nat, xs.length = ys.length →
    leLex xs ys = true → leLex ys xs = true → xs = ys := by
  intro xs
  induction xs with
  | nil =>
    intro ys hl _ _
    cases ys with
    | nil => rfl
    | cons b m => simp at hl
  | cons a l ih =>
    intro ys hl h1 h2
    cases ys with
    | nil => simp at hl
    | cons b m =>
      simp only [List.length_cons, Nat.succ.injEq] at hl
      rcases Nat.lt_trichotomy a b with hab | hab | hab
      · simp [leLex, Nat.lt_asymm hab, hab] at h2
      · subst hab
        simp [leLex, Nat.lt_irrefl] at h1 h2
        rw [ih m hl h1 h2]
      · simp [leLex, Nat.lt_asymm hab, hab] at h1

theorem gvalLeB_total : ∀ a b : GVal, gvalLeB a b = true ∨ gvalLeB b a = true := by
  intro a b
  rcases a with n1 | os1
  · rcases b with n2 | os2
    · simp [gvalLeB]; omega
    · rcases os2 with _ | s2
      · right; rfl
      · left; rfl
  · rcases os1 with _ | s1
    · left
      rcases b with n2 | os2
      · rfl
      · rcases os2 with _ | s2 <;> rfl
    · rcases b with n2 | os2
      · right; rfl
      · rcases os2 with _ | s2
        · right; rfl
        · simp [gvalLeB]
          exact le_total s1.data s2.data

theorem gvalLeB_trans : ∀ a b c : GVal, gvalLeB a b = true → gvalLeB b c = true →
    gvalLeB a c = true := by
  intro a b c hab hbc
  rcases a with n1 | os1
  · rcases b with n2 | os2
    · rcases c with n3 | os3
      · simp [gvalLeB] at hab hbc ⊢
        omega
      · rcases os3 with _ | s3
        · simp [gvalLeB] at hbc
        · rfl
    · rcases os2 with _ | s2
      · simp [gvalLeB] at hab
      · rcases c with n3 | os3
        · simp [gvalLeB] at hbc
        · rcases os3 with _ | s3
          · simp [gvalLeB] at hbc
          · rfl
  · rcases os1 with _ | s1
    · rcases c with n3 | os3
      · rfl
      · rcases os3 with _ | s3 <;> rfl
    · rcases b with n2 | os2
      · simp [gvalLeB] at hab
      · rcases os2 with _ | s2
        · simp [gvalLeB] at hab
        · rcases c with n3 | os3
          · simp [gvalLeB] at hbc
          · rcases os3 with _ | s3
            · simp [gvalLeB] at hbc
            · simp [gvalLeB] at hab hbc ⊢
              exact le_trans hab hbc

theorem groupKeyLe_total : ∀ x y2 : (BucketK × GVal) × Rat,
    groupKeyLe x y2 ∨ groupKeyLe y2 x := by
  intro x y2
  unfold groupKeyLe groupKeyLeB
  by_cases hk : sortKey (recOf x) = sortKey (recOf y2)
  · rw [if_pos hk, if_pos hk.symm]
    exact gvalLeB_total _ _
  · rw [if_neg hk, if_neg (fun h => hk h.symm)]
    exact @IsTotal.total ARec recLe _ (recOf x) (recOf y2)

theorem groupKeyLe_trans : ∀ x y2 z : (BucketK × GVal) × Rat,
    groupKeyLe x y2 → groupKeyLe y2 z → groupKeyLe x z := by
  intro x y2 z h1 h2
  unfold groupKeyLe groupKeyLeB at h1 h2 ⊢
  by_cases hab : sortKey (recOf x) = sortKey (recOf y2) <;>
    by_cases hbc : sortKey (recOf y2) = sortKey (recOf z)
  · rw [if_pos hab] at h1
    rw [if_pos hbc] at h2
    rw [if_pos (hab.trans hbc)]
    exact gvalLeB_trans _ _ _ h1 h2
  · rw [if_pos hab] at h1
    rw [if_neg hbc] at h2
    have hac : sortKey (recOf x) ≠ sortKey (recOf z) := fun h => hbc (hab.symm.trans h)
    rw [if_neg hac, hab]
    exact h2
  · rw [if_neg hab] at h1
    rw [if_pos hbc] at h2
    have hac : sortKey (recOf x) ≠ sortKey (recOf z) := fun h => hab (h.trans hbc.symm)
    rw [if_neg hac, ← hbc]
    exact h1
  · rw [if_neg hab] at h1
    rw [if_neg hbc] at h2
    have hAC : leLex (sortKey (recOf x)) (sortKey (recOf z)) = true :=
      @IsTrans.trans ARec recLe _ (recOf x) (recOf y2) (recOf z) h1 h2
    have hac : sortKey (recOf x) ≠ sortKey (recOf z) := by
      intro h
      have h2b : leLex (sortKey (recOf y2)) (sortKey (recOf x)) = true := by
        rw [h]; exact h2
      have hlen : (sortKey (recOf x)).length = (sortKey (recOf y2)).length := rfl
      exact hab (leLex_antisymm _ _ hlen h1 h2b)
    rw [if_neg hac]
    exact hAC

theorem sorted_groups_c7 (l : List ((BucketK × GVal) × Rat)) :
    c7Ordered ((List.insertionSort groupKeyLe l).map recOf) ∧
    List.Sorted recLe ((List.insertionSort groupKeyLe l).map recOf) := by
  have hT : IsTotal ((BucketK × GVal) × Rat) groupKeyLe := ⟨groupKeyLe_total⟩
  have hR : IsTrans ((BucketK × GVal) × Rat) groupKeyLe := ⟨groupKeyLe_trans⟩
  have hs : List.Sorted groupKeyLe (List.insertionSort groupKeyLe l) :=
    List.sorted_insertionSort groupKeyLe l
  have hmap : List.Pairwise (fun x y2 => recLe x y2 ∧
      (sortKey x = sortKey y2 → gvalLeB x.group y2.group = true))
      ((List.insertionSort groupKeyLe l).map recOf) := by
    refine List.Pairwise.map recOf ?_ hs
    intro a b hab
    unfold groupKeyLe groupKeyLeB at hab
    by_cases hk : sortKey (recOf a) = sortKey (recOf b)
    · rw [if_pos hk] at hab
      refine ⟨?_, fun _ => ?_⟩
      · show leLex (sortKey (recOf a)) (sortKey (recOf b)) = true
        rw [hk]
        exact leLex_refl _
      · obtain ⟨⟨ka, ga⟩, aa⟩ := a
        obtain ⟨⟨kb, gb⟩, ab2⟩ := b
        exact hab
    · rw [if_neg hk] at hab
      exact ⟨hab, fun heq => absurd heq hk⟩
  exact ⟨hmap, List.Pairwise.imp (fun h => h.1) hmap⟩

theorem analysisCore_ordered (t : Nat) (g : GroupBy) (p : Period)
    (fa ta : Option Date) (oe : Bool) (s : Ledger) :
    c7Ordered (analysisCore t g p fa ta oe s) ∧
    List.Sorted recLe (analysisCore t g p fa ta oe s) := by
  unfold analysisCore
  exact sorted_groups_c7 _

/-- C7: every successful analysis response is sorted ascending by the bucket
key components — year, then month (monthly) or week number (weekly) or date
(daily) — with same-bucket records ordered by their grouping value in its
natural ordering (NULL first, numbers ascending, text bytewise), and it equals
the grouping stage's deterministic output, so identical inputs always yield
one identical order. -/
theorem c7_analysis_ordering (t : Nat) (g : GroupBy) (p : Period)
    (fa ta : Option Date) (oe : Bool) (s : Ledger) (recs : List ARec)
    (hok : getAnalysis t g p fa ta oe s = .ok recs) :
    c7Ordered recs ∧ recs = analysisCore t g p fa ta oe s := by
  unfold getAnalysis at hok
  by_cases hargs : (checkArg fa && checkArg ta) = true
  · rw [if_pos hargs] at hok
    injection hok with h
    subst h
    have hco := analysisCore_ordered t g p fa ta oe s
    rw [List.Sorted.insertionSort_eq hco.2]
    exact ⟨hco.1, rfl⟩
  · rw [if_neg hargs] at hok
    cases hok

/-- C7 witness: the concrete two-merchant March 2024 analysis, whose two
same-bucket groups come out ascending by merchant. -/
theorem c7_analysis_ordering_witness :
    c7Ordered [⟨some 2024, some 3, none, none, .gtext (some "a"), 4⟩,
               ⟨some 2024, some 3, none, none, .gtext (some "b"), 3⟩] ∧
    [(⟨some 2024, some 3, none, none, .gtext (some "a"), 4⟩ : ARec),
     ⟨some 2024, some 3, none, none, .gtext (some "b"), 3⟩] =
      analysisCore 1 .merchant .monthly none none false
        ⟨[⟨1, 1, "c", "expense"⟩],
         [⟨1, 1, 1, 3, ⟨2024, 3, 5⟩, some "b", none, none, none, none⟩,
          ⟨2, 1, 1, 4, ⟨2024, 3, 10⟩, some "a", none, none, none, none⟩]⟩ :=
  c7_analysis_ordering 1 .merchant .monthly none none false
    ⟨[⟨1, 1, "c", "expense"⟩],
     [⟨1, 1, 1, 3, ⟨2024, 3, 5⟩, some "b", none, none, none, none⟩,
      ⟨2, 1, 1, 4, ⟨2024, 3, 10⟩, some "a", none, none, none, none⟩]⟩
    [⟨some 2024, some 3, none, none, .gtext (some "a"), 4⟩,
     ⟨some 2024, some 3, none, none, .gtext (some "b"), 3⟩] rfl

/-- C6 witness at a concrete leap-February date: February 2024 resolves to
the window ending on February 29 and the weekly start is a Monday. -/
theorem c6_default_windows_witness :
    defaultWindow .monthly ⟨2024, 2, 10⟩ = (⟨2024, 2, 1⟩, ⟨2024, 2, 29⟩) ∧
    defaultWindow .daily ⟨2024, 2, 10⟩ = (⟨2024, 2, 10⟩, ⟨2024, 2, 10⟩) ∧
    weekday (subDays (weekday ⟨2024, 2, 10⟩) ⟨2024, 2, 10⟩) = 0 :=
  ⟨((c6_default_windows ⟨2024, 2, 10⟩ (by decide)).2.2.1).1,
   (c6_default_windows ⟨2024, 2, 10⟩ (by decide)).1,
   (c6_default_windows ⟨2024, 2, 10⟩ (by decide)).2.1.2.1⟩

theorem importGo_nil (t : Nat) (p : Ledger) (pend : List Exp) :
    importGo t p pend [] = (.ok (), commitPending p pend) := rfl

theorem importGo_cons_err (t : Nat) (p : Ledger) (pend : List Exp) (r : Row)
    (rs : List Row) (m : String) (hvr : validateRow r = .error m) :
    importGo t p pend (r :: rs) = (.error m, p) := by
  rw [importGo, hvr]

theorem importGo_cons_found (t : Nat) (p : Ledger) (pend : List Exp) (r : Row)
    (rs : List Row) (nm : String) (am : Rat) (dt : Date) (c : Cat)
    (hvr : validateRow r = .ok (nm, am, dt))
    (hfc : findCatByName t nm p = some c) :
    importGo t p pend (r :: rs) =
      importGo t p (pend ++ [mkImpExp t c.cid am dt r]) rs := by
  rw [importGo, hvr]
  show (match findCatByName t nm p with
    | some c => importGo t p (pend ++ [mkImpExp t c.cid am dt r]) rs
    | none =>
      let c : Cat := ⟨maxCatId p + 1, t, nm, r.rtype.getD "expense"⟩
      let p2 := commitPending ⟨p.cats ++ [c], p.exps⟩ pend
      importGo t p2 [mkImpExp t c.cid am dt r] rs) = _
  rw [hfc]

theorem importGo_cons_new (t : Nat) (p : Ledger) (pend : List Exp) (r : Row)
    (rs : List Row) (nm : String) (am : Rat) (dt : Date)
    (hvr : validateRow r = .ok (nm, am, dt))
    (hfc : findCatByName t nm p = none) :
    importGo t p pend (r :: rs) =
      importGo t
        (commitPending ⟨p.cats ++ [⟨maxCatId p + 1, t, nm, r.rtype.getD "expense"⟩],
          p.exps⟩ pend)
        [mkImpExp t (maxCatId p + 1) am dt r] rs := by
  rw [importGo, hvr]
  show (match findCatByName t nm p with
    | some c => importGo t p (pend ++ [mkImpExp t c.cid am dt r]) rs
    | none =>
      let c : Cat := ⟨maxCatId p + 1, t, nm, r.rtype.getD "expense"⟩
      let p2 := commitPending ⟨p.cats ++ [c], p.exps⟩ pend
      importGo t p2 [mkImpExp t c.cid am dt r] rs) = _
  rw [hfc]

theorem nodup_snoc_fresh (p : Ledger) (c : Cat) (hcid : c.cid = maxCatId p + 1)
    (hnd : (p.cats.map Cat.cid).Nodup) : ((p.cats ++ [c]).map Cat.cid).Nodup := by
  rw [List.map_append, List.nodup_append]
  refine ⟨hnd, List.nodup_singleton _, ?_⟩
  intro a ha hb
  have hle : a ≤ maxCatId p := maxNat_mem_le _ a ha
  have hbe : a = maxCatId p + 1 := by
    simp only [List.map_singleton, List.mem_singleton] at hb
    rw [hb, hcid]
  omega

/-- What a fully successful import run does to the state: categories are
appended, one pending chunk at a time the expenses are flushed with ids
continuing from the previous maximum, and every produced expense matches its
row with a category of the importing tenant. -/
theorem importGo_ok_spec (t : Nat) (rows : List Row) :
    ∀ (p : Ledger) (pend : List Exp) (u : Unit) (res : Ledger),
      importGo t p pend rows = (.ok u, res) →
      ∃ (newcats : List Cat) (news : List Exp),
        res.cats = p.cats ++ newcats ∧
        res.exps = p.exps ++ assignIds (maxExpId p) (pend ++ news) ∧
        news.length = rows.length ∧
        (∀ c ∈ newcats, c.user = t) ∧
        ((p.cats.map Cat.cid).Nodup → (res.cats.map Cat.cid).Nodup) ∧
        ∀ i (hi : i < rows.length) (hi2 : i < news.length),
          rowMatches res.cats t (rows.get ⟨i, hi⟩) (news.get ⟨i, hi2⟩) := by
  induction rows with
  | nil =>
    intro p pend u res h
    rw [importGo_nil] at h
    injection h with h1 h2
    subst h2
    refine ⟨[], [], by simp [commitPending], ?_, rfl, ?_, ?_, ?_⟩
    · show p.exps ++ assignIds (maxExpId p) pend = p.exps ++ assignIds (maxExpId p) (pend ++ [])
      rw [List.append_nil]
    · intro c hc; cases hc
    · intro hnd; simpa [commitPending] using hnd
    · intro i hi; cases hi
  | cons r rs ih =>
    intro p pend u res h
    cases hvr : validateRow r with
    | error m =>
      rw [importGo_cons_err t p pend r rs m hvr] at h
      injection h with h1 h2
      cases h1
    | ok v =>
      obtain ⟨nm, am, dt⟩ := v
      have hri := validateRow_ok_inv r nm am dt hvr
      cases hfc : findCatByName t nm p with
      | some c =>
        rw [importGo_cons_found t p pend r rs nm am dt c hvr hfc] at h
        obtain ⟨newcats, news, hcats, hexps, hlen, huser, hnd, hidx⟩ :=
          ih p (pend ++ [mkImpExp t c.cid am dt r]) u res h
        have hcinv := findCatByName_some_inv t nm p c hfc
        refine ⟨newcats, mkImpExp t c.cid am dt r :: news, hcats, ?_, ?_, huser, hnd, ?_⟩
        · rw [hexps, List.append_assoc]
          rfl
        · simp [hlen]
        · intro i hi hi2
          cases i with
          | zero =>
            refine ⟨rfl, hri.2.1, hri.2.2.1, rfl, rfl, rfl, rfl, rfl,
              c, ?_, hcinv.2.1, ?_, rfl⟩
            · rw [hcats]; exact List.mem_append_left _ hcinv.1
            · show r.category = some c.name
              rw [hri.1, hcinv.2.2]
          | succ j =>
            have hj : j < rs.length := by simpa using hi
            have hj2 : j < news.length := by simpa using hi2
            exact hidx j hj hj2
      | none =>
        rw [importGo_cons_new t p pend r rs nm am dt hvr hfc] at h
        obtain ⟨newcats, news, hcats, hexps, hlen, huser, hnd, hidx⟩ :=
          ih (commitPending ⟨p.cats ++ [⟨maxCatId p + 1, t, nm, r.rtype.getD "expense"⟩],
              p.exps⟩ pend)
            [mkImpExp t (maxCatId p + 1) am dt r] u res h
        have hc2 : (commitPending ⟨p.cats ++ [⟨maxCatId p + 1, t, nm, r.rtype.getD "expense"⟩],
            p.exps⟩ pend).cats = p.cats ++ [⟨maxCatId p + 1, t, nm, r.rtype.getD "expense"⟩] := rfl
        have he2 : (commitPending ⟨p.cats ++ [⟨maxCatId p + 1, t, nm, r.rtype.getD "expense"⟩],
            p.exps⟩ pend).exps = p.exps ++ assignIds (maxExpId p) pend := rfl
        have hm2 : maxExpId (commitPending ⟨p.cats ++
            [⟨maxCatId p + 1, t, nm, r.rtype.getD "expense"⟩], p.exps⟩ pend) =
            maxExpId p + pend.length :=
          maxExpId_commitPending ⟨p.cats ++ [⟨maxCatId p + 1, t, nm, r.rtype.getD "expense"⟩],
            p.exps⟩ pend
        have hcatsR : res.cats = p.cats ++
            (⟨maxCatId p + 1, t, nm, r.rtype.getD "expense"⟩ :: newcats) := by
          rw [hcats, hc2, List.append_assoc]; rfl
        refine ⟨⟨maxCatId p + 1, t, nm, r.rtype.getD "expense"⟩ :: newcats,
          mkImpExp t (maxCatId p + 1) am dt r :: news, hcatsR, ?_, ?_, ?_, ?_, ?_⟩
        · rw [hexps, he2, hm2, List.append_assoc]
          show p.exps ++ (assignIds (maxExpId p) pend ++
            assignIds (maxExpId p + pend.length) ([mkImpExp t (maxCatId p + 1) am dt r] ++ news)) = _
          rw [← assignIds_append]
          rfl
        · simp [hlen]
        · intro c2 hc3
          rcases List.mem_cons.mp hc3 with hh | h2
          · rw [hh]
          · exact huser c2 h2
        · intro hnd0
          have hfresh := nodup_snoc_fresh p ⟨maxCatId p + 1, t, nm, r.rtype.getD "expense"⟩ rfl hnd0
          rw [← hc2] at hfresh
          exact hnd hfresh
        · intro i hi hi2
          cases i with
          | zero =>
            refine ⟨rfl, hri.2.1, hri.2.2.1, rfl, rfl, rfl, rfl, rfl,
              ⟨maxCatId p + 1, t, nm, r.rtype.getD "expense"⟩, ?_, rfl, hri.1, rfl⟩
            rw [hcatsR]
            exact List.mem_append_right _ (List.mem_cons_self _ _)
          | succ j =>
            have hj : j < rs.length := by simpa using hi
            have hj2 : j < news.length := by simpa using hi2
            exact hidx j hj hj2

theorem importGo_count (t : Nat) (X : String) (rows : List Row) :
    ∀ (p : Ledger) (pend : List Exp) (u : Unit) (res : Ledger),
      importGo t p pend rows = (.ok u, res) →
      (tenantCatsNamed t X res.cats).length =
        if (tenantCatsNamed t X p.cats).length = 0 ∧
            rows.any (fun r => r.category == some X) = true
        then 1 else (tenantCatsNamed t X p.cats).length := by
  induction rows with
  | nil =>
    intro p pend u res h
    rw [importGo_nil] at h
    injection h with h1 h2
    subst h2
    have hcc : (commitPending p pend).cats = p.cats := rfl
    rw [hcc]
    simp
  | cons r rs ih =>
    intro p pend u res h
    cases hvr : validateRow r with
    | error m =>
      rw [importGo_cons_err t p pend r rs m hvr] at h
      injection h with h1 h2
      cases h1
    | ok v =>
      obtain ⟨nm, am, dt⟩ := v
      have hri := validateRow_ok_inv r nm am dt hvr
      cases hfc : findCatByName t nm p with
      | some c =>
        rw [importGo_cons_found t p pend r rs nm am dt c hvr hfc] at h
        have hih := ih p (pend ++ [mkImpExp t c.cid am dt r]) u res h
        rw [hih]
        have hcinv := findCatByName_some_inv t nm p c hfc
        by_cases hx : nm = X
        · subst hx
          have hmem : c ∈ tenantCatsNamed t nm p.cats :=
            List.mem_filter.mpr ⟨hcinv.1, by simp [hcinv.2.1, hcinv.2.2]⟩
          have hne : (tenantCatsNamed t nm p.cats).length ≠ 0 := by
            intro h0
            rw [List.length_eq_zero] at h0
            rw [h0] at hmem
            cases hmem
          rw [if_neg (by tauto), if_neg (by tauto)]
        · have hany : ((r :: rs).any (fun r2 => r2.category == some X)) =
              (rs.any (fun r2 => r2.category == some X)) := by
            rw [List.any_cons]
            have hf : (r.category == some X) = false := by
              rw [hri.1]; simp [hx]
            rw [hf]
            simp
          rw [hany]
      | none =>
        rw [importGo_cons_new t p pend r rs nm am dt hvr hfc] at h
        have hih := ih
          (commitPending ⟨p.cats ++ [⟨maxCatId p + 1, t, nm, r.rtype.getD "expense"⟩],
            p.exps⟩ pend)
          [mkImpExp t (maxCatId p + 1) am dt r] u res h
        have hc2 : (commitPending ⟨p.cats ++ [⟨maxCatId p + 1, t, nm, r.rtype.getD "expense"⟩],
            p.exps⟩ pend).cats = p.cats ++ [⟨maxCatId p + 1, t, nm, r.rtype.getD "expense"⟩] := rfl
        rw [hc2] at hih
        have htc : tenantCatsNamed t X
            (p.cats ++ [⟨maxCatId p + 1, t, nm, r.rtype.getD "expense"⟩]) =
            tenantCatsNamed t X p.cats ++
              tenantCatsNamed t X [⟨maxCatId p + 1, t, nm, r.rtype.getD "expense"⟩] :=
          List.filter_append _ _
        by_cases hx : nm = X
        · subst hx
          have h0 : tenantCatsNamed t nm p.cats = [] := by
            rw [tenantCatsNamed, List.filter_eq_nil_iff]
            intro c2 hc2m hpred
            have hfind := List.find?_eq_none.mp hfc c2 hc2m
            exact hfind hpred
          have h1 : tenantCatsNamed t nm [⟨maxCatId p + 1, t, nm, r.rtype.getD "expense"⟩] =
              [⟨maxCatId p + 1, t, nm, r.rtype.getD "expense"⟩] := by
            simp [tenantCatsNamed]
          rw [htc, h0, h1] at hih
          simp only [List.nil_append, List.length_singleton] at hih
          rw [if_neg (by simp)] at hih
          rw [hih, if_pos ⟨by rw [h0]; rfl, by simp [List.any_cons, hri.1]⟩]
        · have h1 : tenantCatsNamed t X [⟨maxCatId p + 1, t, nm, r.rtype.getD "expense"⟩] = [] := by
            simp [tenantCatsNamed, hx]
          rw [htc, h1, List.append_nil] at hih
          rw [hih]
          have hany : ((r :: rs).any (fun r2 => r2.category == some X)) =
              (rs.any (fun r2 => r2.category == some X)) := by
            rw [List.any_cons]
            have hf : (r.category == some X) = false := by
              rw [hri.1]; simp [hx]
            rw [hf]
            simp
          rw [hany]

/-- C8: in one successful import batch, rows naming a category new to the
tenant produce exactly one category of that name, and every expense made
from such a row references that single category. -/
theorem c8_import_dedup (t : Nat) (s : Ledger) (rows : List Row) (X : String)
    (u : Unit) (res : Ledger)
    (himp : importCsv t s rows = (Except.ok u, res))
    (hnone : tenantCatsNamed t X s.cats = [])
    (hmulti : 2 ≤ (rows.filter (fun r => r.category == some X)).length) :
    ∃ c, tenantCatsNamed t X res.cats = [c] ∧ c.user = t ∧ c.name = X ∧
      ∃ news, res.exps = s.exps ++ assignIds (maxExpId s) news ∧
        news.length = rows.length ∧
        ∀ i (hi : i < rows.length) (hi2 : i < news.length),
          (rows.get ⟨i, hi⟩).category = some X →
            (news.get ⟨i, hi2⟩).catId = c.cid := by
  have himp' : importGo t s [] rows = (Except.ok u, res) := himp
  have hex : ∃ r ∈ rows, (r.category == some X) = true := by
    have hpos : 0 < (rows.filter (fun r => r.category == some X)).length := by omega
    rw [List.length_pos] at hpos
    obtain ⟨r, hr⟩ := List.exists_mem_of_ne_nil _ hpos
    exact ⟨r, (List.mem_filter.mp hr).1, (List.mem_filter.mp hr).2⟩
  have hany : rows.any (fun r => r.category == some X) = true :=
    List.any_eq_true.mpr hex
  have hcount := importGo_count t X rows s [] u res himp'
  rw [hnone] at hcount
  rw [if_pos ⟨rfl, hany⟩] at hcount
  obtain ⟨c, hc⟩ := List.length_eq_one.mp hcount
  have hcmem : c ∈ tenantCatsNamed t X res.cats := by
    rw [hc]; exact List.mem_singleton_self c
  have hcprop := (List.mem_filter.mp hcmem).2
  simp only [Bool.and_eq_true, beq_iff_eq] at hcprop
  obtain ⟨newcats, news, hcats, hexps, hlen, huser, hnd, hidx⟩ :=
    importGo_ok_spec t rows s [] u res himp'
  refine ⟨c, hc, hcprop.1, hcprop.2, news, ?_, hlen, ?_⟩
  · simpa using hexps
  · intro i hi hi2 hXi
    obtain ⟨_, _, _, _, _, _, _, _, cc, hccmem, hccu, hcceq, hcid⟩ := hidx i hi hi2
    rw [hXi] at hcceq
    injection hcceq with h3
    have hccin : cc ∈ tenantCatsNamed t X res.cats :=
      List.mem_filter.mpr ⟨hccmem, by simp [hccu, h3.symm]⟩
    rw [hc] at hccin
    rw [hcid, List.mem_singleton.mp hccin]

/-- C9 amended: the export of a tenant followed by an import into an empty
tenant reproduces the tenant's expense rows in order, up to the CSV
normalisation of absent text fields to the empty string. -/
theorem c9_roundtrip (t t2 : Nat) (s : Ledger) (rows : List Row) (u : Unit)
    (res : Ledger)
    (hexp : exportCsv t none none s = .ok rows)
    (himp : importCsv t2 ⟨[], []⟩ rows = (.ok u, res)) :
    res.exps.map (expTupleN res) =
      (s.exps.filter (fun e => e.user == t)).map (expTupleN s) := by
  have hrows : rows = (s.exps.filter (fun e => e.user == t)).map (exportRowOf s) := by
    rw [exportCsv] at hexp
    rw [if_pos (show (checkArg none && checkArg none) = true from rfl)] at hexp
    injection hexp with h1
    rw [← h1]
    congr 1
    apply List.filter_congr
    intro e he
    show (e.user == t && inRange none none e.date) = (e.user == t)
    have hr : inRange none none e.date = true := rfl
    rw [hr, Bool.and_true]
  subst hrows
  obtain ⟨newcats, news, hcats, hexps, hlen, huser, hnd, hidx⟩ :=
    importGo_ok_spec t2 _ ⟨[], []⟩ [] u res himp
  simp only [List.nil_append] at hcats hexps
  have hndr : (res.cats.map Cat.cid).Nodup := hnd (by simp)
  rw [hexps]
  apply List.ext_get
  · rw [List.length_map, assignIds_length, hlen, List.length_map, List.length_map]
  intro i h1 h2
  have hiN : i < news.length := by
    have h1b := h1
    rw [List.length_map, assignIds_length] at h1b
    exact h1b
  have hiF : i < (s.exps.filter (fun e => e.user == t)).length := by simpa using h2
  have hiR : i < ((s.exps.filter (fun e => e.user == t)).map (exportRowOf s)).length := by
    rw [List.length_map]
    exact hiF
  have hiA : i < (assignIds (maxExpId ⟨[], []⟩) news).length := by
    rw [assignIds_length]
    exact hiN
  have hget := assignIds_get news (maxExpId ⟨[], []⟩) i hiN hiA
  obtain ⟨hu, ham, hdt, hmer, hacc, hproj, htag, hnote, cc, hccm, hccu, hcceq, hcid⟩ :=
    hidx i hiR hiN
  have hgm : ((s.exps.filter (fun e => e.user == t)).map (exportRowOf s)).get ⟨i, hiR⟩ =
      exportRowOf s ((s.exps.filter (fun e => e.user == t)).get ⟨i, hiF⟩) := by
    simp [List.get_eq_getElem, List.getElem_map]
  rw [hgm] at ham hdt hmer hacc hproj htag hnote hcceq
  injection ham with hamv
  injection hdt with hdtv
  injection hcceq with hccname
  have hname : catNameOf res (news.get ⟨i, hiN⟩).catId = cc.name := by
    rw [catNameOf, findCatById, hcid, find?_cid_of_nodup res.cats hndr cc hccm]
  simp only [List.get_eq_getElem, List.getElem_map]
  have hAe : getElem (assignIds (maxExpId ⟨[], []⟩) news) i hiA =
      { news.get ⟨i, hiN⟩ with eid := maxExpId ⟨[], []⟩ + i + 1 } := hget
  rw [hAe]
  show expTupleN res (news.get ⟨i, hiN⟩) =
    expTupleN s ((s.exps.filter (fun e => e.user == t)).get ⟨i, hiF⟩)
  show (⟨(news.get ⟨i, hiN⟩).date, (news.get ⟨i, hiN⟩).amount,
      catNameOf res (news.get ⟨i, hiN⟩).catId,
      (news.get ⟨i, hiN⟩).merchant.getD "", (news.get ⟨i, hiN⟩).account.getD "",
      (news.get ⟨i, hiN⟩).project.getD "", (news.get ⟨i, hiN⟩).tags.getD "",
      (news.get ⟨i, hiN⟩).note.getD ""⟩ : TupN) = _
  rw [hname, ← hccname, ← hamv, ← hdtv, hmer, hacc, hproj, htag, hnote]
  rfl

theorem c8_import_dedup_witness :
    ∃ c, tenantCatsNamed 1 "A" [(⟨1, 1, "A", "expense"⟩ : Cat)] = [c] ∧
      c.user = 1 ∧ c.name = "A" ∧
      ∃ news,
        ([⟨1, 1, 1, 5, ⟨2024, 1, 2⟩, none, none, none, none, none⟩,
          ⟨2, 1, 1, 7, ⟨2024, 1, 3⟩, none, none, none, none, none⟩] : List Exp) =
          assignIds 0 news ∧
        news.length = 2 ∧
        ∀ i (hi : i < 2) (hi2 : i < news.length),
          (([⟨some "A", some 5, some ⟨2024, 1, 2⟩, none, none, none, none, none, none⟩,
             ⟨some "A", some 7, some ⟨2024, 1, 3⟩, none, none, none, none, none, none⟩] :
              List Row).get ⟨i, hi⟩).category = some "A" →
            (news.get ⟨i, hi2⟩).catId = c.cid := by
  exact c8_import_dedup 1 ⟨[], []⟩
    [⟨some "A", some 5, some ⟨2024, 1, 2⟩, none, none, none, none, none, none⟩,
     ⟨some "A", some 7, some ⟨2024, 1, 3⟩, none, none, none, none, none, none⟩]
    "A" ()
    ⟨[⟨1, 1, "A", "expense"⟩],
     [⟨1, 1, 1, 5, ⟨2024, 1, 2⟩, none, none, none, none, none⟩,
      ⟨2, 1, 1, 7, ⟨2024, 1, 3⟩, none, none, none, none, none⟩]⟩
    rfl rfl (by decide)

theorem c9_counterexample :
    exportCsv 1 none none
        ⟨[⟨1, 1, "C", "expense"⟩],
         [⟨1, 1, 1, 5, ⟨2024, 1, 2⟩, none, none, none, none, none⟩]⟩ =
      .ok [⟨some "C", some 5, some ⟨2024, 1, 2⟩, none,
            some "", some "", some "", some "", some ""⟩] ∧
    importCsv 9 ⟨[], []⟩
        [⟨some "C", some 5, some ⟨2024, 1, 2⟩, none,
          some "", some "", some "", some "", some ""⟩] =
      (.ok (), ⟨[⟨1, 9, "C", "expense"⟩],
        [⟨1, 9, 1, 5, ⟨2024, 1, 2⟩, some "", some "", some "", some "", some ""⟩]⟩) ∧
    Multiset.ofList
        (([⟨1, 9, 1, 5, ⟨2024, 1, 2⟩, some "", some "", some "", some "", some ""⟩] :
          List Exp).map (expTuple ⟨[⟨1, 9, "C", "expense"⟩],
            [⟨1, 9, 1, 5, ⟨2024, 1, 2⟩, some "", some "", some "", some "", some ""⟩]⟩)) ≠
      Multiset.ofList
        ((([⟨1, 1, 1, 5, ⟨2024, 1, 2⟩, none, none, none, none, none⟩] :
            List Exp).filter (fun e => e.user == 1)).map
          (expTuple ⟨[⟨1, 1, "C", "expense"⟩],
            [⟨1, 1, 1, 5, ⟨2024, 1, 2⟩, none, none, none, none, none⟩]⟩)) := by
  refine ⟨rfl, rfl, ?_⟩
  decide

theorem c9_roundtrip_witness :
    (([⟨1, 9, 1, 5, ⟨2024, 1, 2⟩, some "", some "", some "", some "", some ""⟩] :
        List Exp).map (expTupleN ⟨[⟨1, 9, "C", "expense"⟩],
          [⟨1, 9, 1, 5, ⟨2024, 1, 2⟩, some "", some "", some "", some "", some ""⟩]⟩)) =
      (([⟨1, 1, 1, 5, ⟨2024, 1, 2⟩, none, none, none, none, none⟩] :
          List Exp).filter (fun e => e.user == 1)).map
        (expTupleN ⟨[⟨1, 1, "C", "expense"⟩],
          [⟨1, 1, 1, 5, ⟨2024, 1, 2⟩, none, none, none, none, none⟩]⟩) := by
  exact c9_roundtrip 1 9
    ⟨[⟨1, 1, "C", "expense"⟩],
     [⟨1, 1, 1, 5, ⟨2024, 1, 2⟩, none, none, none, none, none⟩]⟩
    [⟨some "C", some 5, some ⟨2024, 1, 2⟩, none,
      some "", some "", some "", some "", some ""⟩] ()
    ⟨[⟨1, 9, "C", "expense"⟩],
     [⟨1, 9, 1, 5, ⟨2024, 1, 2⟩, some "", some "", some "", some "", some ""⟩]⟩
    rfl rfl

end ExpensePro
